import Mathlib

/-!
# Maximum value of matrix elements (MPI task `belov_a_max_value_of_matrix_elements`)

A shallow embedding of `tasks/mpi/belov_a_max_value_of_matrix_elements/include/ops_mpi.hpp`.

* C++ `int` values are mathematical integers; the one product the code forms,
  `rows_ * cols_`, is reduced to the 32-bit two's-complement range (`mulInt`). The additions
  of `run` stay within `[0, rows_ * cols_]` (`distr_displ_in_range`) and are not reduced.
* A buffer of the task harness is a list seen through the pointer type the code casts it to.
* An operation whose C++ behaviour is undefined (reading past a buffer, dereferencing the
  end iterator, a negative length) yields `none`.
* The process group is the list of the task instances of its ranks, rank `i` at index `i`;
  the collectives `broadcast`, `scatterv` and `reduce` are functions of that list.
* Every method maps the instance before the call to its return value and the instance after
  the call. The call `internal_order_test()` belongs to `ppc::core::Task`; the stage order it
  enforces is the one `pipeline` fixes.
* The indexed accesses `distr[i]` and `displ[i]` of `run` are in bounds whenever
  `0 ≤ rows_ * cols_` and `1 ≤ size` (`distr_length`, `displ_length`), so they are written
  with total list operations.
-/

namespace belov_a_max_value_of_matrix_elements_mpi

/-! ## Machine integers -/

/-- Smallest value of a C++ `int` (32 bits). -/
def INT_MIN : Int := -2147483648

/-- Largest value of a C++ `int` (32 bits). -/
def INT_MAX : Int := 2147483647

/-- Reduction of an integer to the 32-bit two's-complement range. -/
def wrapInt (x : Int) : Int := (x + 2147483648) % 4294967296 - 2147483648

/-- The `int` product `a * b` as the 32-bit multiplication computes it. -/
def mulInt (a b : Int) : Int := wrapInt (a * b)

/-! ## Task data -/

/-- A raw buffer of the harness, seen through the pointer type it is cast to:
`reinterpret_cast<int*>` or `reinterpret_cast<T*>`. -/
inductive Buffer (T : Type) where
  | ints : List Int → Buffer T
  | elems : List T → Buffer T

/-- The part of `ppc::core::TaskData` the tasks use: `inputs` and `outputs`. -/
structure TaskData (T : Type) where
  inputs : List (Buffer T)
  outputs : List (List T)

/-- Read `reinterpret_cast<int*>(taskData->inputs[b])[i]`. -/
def TaskData.read_int {T : Type} (td : TaskData T) (b i : Nat) : Option Int :=
  match td.inputs[b]? with
  | some (Buffer.ints xs) => xs[i]?
  | _ => none

/-- The range `[p, p + count)` with `p = reinterpret_cast<T*>(taskData->inputs[b])`, as
`matrix.assign(p, p + count)` copies it. -/
def TaskData.read_elems {T : Type} (td : TaskData T) (b : Nat) (count : Int) : Option (List T) :=
  match td.inputs[b]? with
  | some (Buffer.elems xs) =>
    if 0 ≤ count ∧ count ≤ xs.length then some (xs.take count.toNat) else none
  | _ => none

/-- The assignment `reinterpret_cast<T*>(taskData->outputs[0])[0] = v`. -/
def TaskData.write_output0 {T : Type} (td : TaskData T) (v : T) : Option (TaskData T) :=
  match td.outputs with
  | (_ :: slots) :: rest => some { td with outputs := (v :: slots) :: rest }
  | _ => none

/-- The value of `reinterpret_cast<T*>(taskData->outputs[0])[0]`. -/
def TaskData.output0 {T : Type} (td : TaskData T) : Option T :=
  match td.outputs with
  | (v :: _) :: _ => some v
  | _ => none

/-! ## Library functions the tasks call -/

/-- The element `*std::max_element(first, last)`: the first largest element under `<`;
`none` for an empty range, where `max_element` returns `last`. -/
def max_element {T : Type} [LT T] [DecidableRel (fun a b : T => a < b)] : List T → Option T
  | [] => none
  | x :: xs => some (xs.foldl (fun largest y => if largest < y then y else largest) x)

/-- The operator `boost::mpi::maximum<T>`: `x < y ? y : x`. -/
def maximum {T : Type} [LT T] [DecidableRel (fun a b : T => a < b)] (x y : T) : T :=
  if x < y then y else x

/-- The collective `boost::mpi::reduce(world, value, out, op, 0)`: the values of all ranks
combined with `op` in rank order; `none` for an empty group. -/
def reduce {T : Type} (op : T → T → T) : List T → Option T
  | [] => none
  | x :: xs => some (xs.foldl op x)

/-- The collective `boost::mpi::scatterv(world, matrix, distr, displ, ...)`: rank `i`
receives `distr[i]` elements starting at `matrix.data() + displ[i]`. -/
def scatterv {T : Type} (matrix : List T) (distr displ : List Int) : Option (List (List T)) :=
  if (distr.zip displ).all
      (fun cd => decide (0 ≤ cd.1 ∧ 0 ≤ cd.2 ∧ cd.2 + cd.1 ≤ (matrix.length : Int))) then
    some ((distr.zip displ).map (fun cd => (matrix.drop cd.2.toNat).take cd.1.toNat))
  else none

/-! ## The partition computed in `run` -/

/-- The vector `distr` of `run` (lines 97-103) for `n = rows_ * cols_`:
`std::vector<int> distr(size, delta); for (int i = 0; i < remainder; ++distr[i], ++i);`
with `delta = n / size` and `remainder = n % size`. -/
def distr (n size : Int) : List Int :=
  (List.range (n.tmod size).toNat).foldl (fun d i => d.set i (d.getD i 0 + 1))
    (List.replicate size.toNat (n.tdiv size))

/-- The vector `displ` of `run` (lines 101-106):
`std::vector<int> displ(size, 0);
for (int i = 1; i < size; ++i) displ[i] = displ[i - 1] + distr[i - 1];`. -/
def displ (n size : Int) : List Int :=
  (List.range' 1 (size.toNat - 1)).foldl
    (fun d i => d.set i (d.getD (i - 1) 0 + (distr n size).getD (i - 1) 0))
    (List.replicate size.toNat 0)

/-! ## The distributed task -/

/-- The members of one process's `MaxValueOfMatrixElementsParallel<T>` instance. -/
structure MaxValueOfMatrixElementsParallel (T : Type) where
  taskData : TaskData T
  rows_ : Int
  cols_ : Int
  global_max_ : T
  local_max_ : T
  matrix : List T

namespace MaxValueOfMatrixElementsParallel

variable {T : Type} [LinearOrder T] [Zero T]

/-- A newly constructed task: `rows_ = 0`, `cols_ = 0`, `global_max_{}`,
`local_max_ = std::numeric_limits<T>::lowest()` and an empty `matrix`. -/
def init (taskData : TaskData T) (lowest : T) : MaxValueOfMatrixElementsParallel T :=
  { taskData := taskData, rows_ := 0, cols_ := 0, global_max_ := 0, local_max_ := lowest,
    matrix := [] }

/-- The static member `get_max_matrix_element`:
`matrix.empty() ? 0 : *std::max_element(matrix.begin(), matrix.end())`. -/
def get_max_matrix_element (matrix : List T) : T :=
  match max_element matrix with
  | none => 0
  | some v => v

/-- The method `pre_processing` at the process of rank `rank`. -/
def pre_processing (rank : Int) (self : MaxValueOfMatrixElementsParallel T) :
    Option (Bool × MaxValueOfMatrixElementsParallel T) :=
  if rank = 0 then
    match self.taskData.read_int 0 0, self.taskData.read_int 0 1 with
    | some r, some c =>
      let self1 := { self with rows_ := r, cols_ := c }
      if r ≤ 0 ∨ c ≤ 0 then some (false, self1)
      else
        match self.taskData.read_elems 1 (mulInt r c) with
        | some m => some (true, { self1 with matrix := m })
        | none => none
    | _, _ => none
  else some (true, self)

/-- The method `validation` at the process of rank `rank`. -/
def validation (rank : Int) (self : MaxValueOfMatrixElementsParallel T) :
    Option (Bool × MaxValueOfMatrixElementsParallel T) :=
  if rank = 0 then
    if self.taskData.inputs.isEmpty ∨ self.taskData.outputs.isEmpty then some (false, self)
    else
      match self.taskData.read_int 0 0 with
      | none => none
      | some d0 =>
        if d0 ≤ 0 then some (false, self)
        else
          match self.taskData.read_int 0 1 with
          | none => none
          | some d1 => if d1 ≤ 0 then some (false, self) else some (true, self)
  else some (true, self)

/-- The method `run`, executed collectively by all processes of `world`. The entry of rank
`i` in the result is that process's return value and its instance after the call. -/
def run (world : List (MaxValueOfMatrixElementsParallel T)) :
    Option (List (Bool × MaxValueOfMatrixElementsParallel T)) :=
  match world with
  | [] => none
  | root :: _ =>
    let size : Int := world.length
    let rows := root.rows_
    let cols := root.cols_
    let n := mulInt rows cols
    match scatterv root.matrix (distr n size) (displ n size) with
    | none => none
    | some local_matrices =>
      let local_maxes := local_matrices.map get_max_matrix_element
      match reduce maximum local_maxes with
      | none => none
      | some g =>
        some ((world.zip local_maxes).enum.map (fun e =>
          (true, { e.2.1 with
                    rows_ := rows, cols_ := cols, local_max_ := e.2.2,
                    global_max_ := if e.1 = 0 then g else e.2.1.global_max_ })))

/-- The method `post_processing` at the process of rank `rank`. -/
def post_processing (rank : Int) (self : MaxValueOfMatrixElementsParallel T) :
    Option (Bool × MaxValueOfMatrixElementsParallel T) :=
  if rank = 0 then
    match self.taskData.write_output0 self.global_max_ with
    | some td => some (true, { self with taskData := td })
    | none => none
  else some (true, self)

/-- One stage of the task executed by every process of the group: the method `f` is called
with rank `rank` on the first instance, `rank + 1` on the second, and so on. -/
def for_each_rank (f : Int → MaxValueOfMatrixElementsParallel T →
      Option (Bool × MaxValueOfMatrixElementsParallel T)) :
    Int → List (MaxValueOfMatrixElementsParallel T) →
      Option (List (Bool × MaxValueOfMatrixElementsParallel T))
  | _, [] => some []
  | rank, t :: ts =>
    match f rank t, for_each_rank f (rank + 1) ts with
    | some r, some rs => some (r :: rs)
    | _, _ => none

/-- The task as the harness drives it on every process: `validation`, `pre_processing`,
`run`, `post_processing`, each stage gated on the success of the previous one. The result is
`(true, world)` when all four stages succeeded and `(false, world)` when a stage returned
`false`, with the instances as that stage left them. -/
def pipeline (world : List (MaxValueOfMatrixElementsParallel T)) :
    Option (Bool × List (MaxValueOfMatrixElementsParallel T)) :=
  match for_each_rank validation 0 world with
  | none => none
  | some v =>
    if !(v.all (fun r => r.1)) then some (false, v.map (fun r => r.2))
    else
      match for_each_rank pre_processing 0 (v.map (fun r => r.2)) with
      | none => none
      | some pre =>
        if !(pre.all (fun r => r.1)) then some (false, pre.map (fun r => r.2))
        else
          match run (pre.map (fun r => r.2)) with
          | none => none
          | some ran =>
            if !(ran.all (fun r => r.1)) then some (false, ran.map (fun r => r.2))
            else
              match for_each_rank post_processing 0 (ran.map (fun r => r.2)) with
              | none => none
              | some post => some (post.all (fun r => r.1), post.map (fun r => r.2))

/-- The value the distributed task leaves in `outputs[0][0]` at the coordinator after a
successful pipeline. -/
def output (world : List (MaxValueOfMatrixElementsParallel T)) : Option T :=
  match pipeline world with
  | some (true, root :: _) => root.taskData.output0
  | _ => none

end MaxValueOfMatrixElementsParallel

/-! ## The sequential task -/

/-- The members of a `MaxValueOfMatrixElementsSequential<T>` instance. -/
structure MaxValueOfMatrixElementsSequential (T : Type) where
  taskData : TaskData T
  rows_ : Int
  cols_ : Int
  res : T
  matrix : List T

namespace MaxValueOfMatrixElementsSequential

variable {T : Type} [LinearOrder T] [Zero T]

/-- A newly constructed task: `rows_ = 0`, `cols_ = 0`, `res{}` and an empty `matrix`. -/
def init (taskData : TaskData T) : MaxValueOfMatrixElementsSequential T :=
  { taskData := taskData, rows_ := 0, cols_ := 0, res := 0, matrix := [] }

/-- The static member `get_max_matrix_element`:
`*std::max_element(matrix.begin(), matrix.end())`, undefined for an empty `matrix`. -/
def get_max_matrix_element (matrix : List T) : Option T :=
  max_element matrix

/-- The method `pre_processing`. -/
def pre_processing (self : MaxValueOfMatrixElementsSequential T) :
    Option (Bool × MaxValueOfMatrixElementsSequential T) :=
  match self.taskData.read_int 0 0, self.taskData.read_int 0 1 with
  | some r, some c =>
    let self1 := { self with rows_ := r, cols_ := c }
    if r ≤ 0 ∨ c ≤ 0 then some (false, self1)
    else
      match self.taskData.read_elems 1 (mulInt r c) with
      | some m => some (true, { self1 with matrix := m })
      | none => none
  | _, _ => none

/-- The method `validation`. -/
def validation (self : MaxValueOfMatrixElementsSequential T) :
    Option (Bool × MaxValueOfMatrixElementsSequential T) :=
  some (!self.taskData.inputs.isEmpty && !self.taskData.outputs.isEmpty, self)

/-- The method `run`. -/
def run (self : MaxValueOfMatrixElementsSequential T) :
    Option (Bool × MaxValueOfMatrixElementsSequential T) :=
  match get_max_matrix_element self.matrix with
  | none => none
  | some v =>
    match self.taskData.write_output0 v with
    | some td => some (true, { self with res := v, taskData := td })
    | none => none

/-- The method `post_processing`. -/
def post_processing (self : MaxValueOfMatrixElementsSequential T) :
    Option (Bool × MaxValueOfMatrixElementsSequential T) :=
  some (true, self)

/-- The task as the harness drives it: `validation`, `pre_processing`, `run`,
`post_processing`, each stage gated on the success of the previous one. -/
def pipeline (self : MaxValueOfMatrixElementsSequential T) :
    Option (Bool × MaxValueOfMatrixElementsSequential T) :=
  match validation self with
  | none => none
  | some (false, s) => some (false, s)
  | some (true, s) =>
    match pre_processing s with
    | none => none
    | some (false, s) => some (false, s)
    | some (true, s) =>
      match run s with
      | none => none
      | some (false, s) => some (false, s)
      | some (true, s) => post_processing s

/-- The value the sequential task leaves in `outputs[0][0]` after a successful pipeline. -/
def output (self : MaxValueOfMatrixElementsSequential T) : Option T :=
  match pipeline self with
  | some (true, s) => s.taskData.output0
  | _ => none

end MaxValueOfMatrixElementsSequential

/-! ## Reference notions used in the statements -/

/-- The task data of a process that holds no buffers (a non-coordinator in the scenarios
below). -/
def no_task_data : TaskData Int := { inputs := [], outputs := [] }

/-- Scenario `rows = 2`, `cols = 3`, matrix `[[1,7,3],[9,2,5]]`, one output slot. -/
def scenario_2x3 : TaskData Int :=
  { inputs := [Buffer.ints [2, 3], Buffer.elems [1, 7, 3, 9, 2, 5]], outputs := [[0]] }

/-- Scenario `rows = 1`, `cols = 1`, matrix `[[-5]]`, one output slot. -/
def scenario_negative : TaskData Int :=
  { inputs := [Buffer.ints [1, 1], Buffer.elems [-5]], outputs := [[7]] }

/-- Scenario `rows = 1`, `cols = 1`, matrix `[[42]]`, one output slot. -/
def scenario_42 : TaskData Int :=
  { inputs := [Buffer.ints [1, 1], Buffer.elems [42]], outputs := [[0]] }

/-- Scenario `rows = 0`, `cols = 3`, an empty matrix, one output slot. -/
def scenario_zero_rows : TaskData Int :=
  { inputs := [Buffer.ints [0, 3], Buffer.elems []], outputs := [[7]] }

/-- Scenario `rows = 65536`, `cols = 65536`, all `65536 * 65536` elements equal to `1`, one
output slot. -/
def scenario_65536 : TaskData Int :=
  { inputs := [Buffer.ints [65536, 65536], Buffer.elems (List.replicate 4294967296 1)],
    outputs := [[7]] }

/-- The value `v` is the maximum of `m`: it occurs in `m` and no element of `m` exceeds it. -/
def IsMaxOf {T : Type} [LE T] (v : T) (m : List T) : Prop :=
  v ∈ m ∧ ∀ x ∈ m, x ≤ v

/-- The running offsets `off, off + c₀, off + c₀ + c₁, ...` of the counts `c₀, c₁, ...`. -/
def running_offsets (off : Int) : List Int → List Int
  | [] => []
  | cnt :: cnts => off :: running_offsets (off + cnt) cnts

/-! ## The partition: closed forms -/

theorem incr_fold_length (k : Nat) (d : List Int) :
    ((List.range k).foldl (fun d i => d.set i (d.getD i 0 + 1)) d).length = d.length := by
  induction k with
  | zero => simp
  | succ k ih =>
    rw [List.range_succ, List.foldl_append]
    simp only [List.foldl_cons, List.foldl_nil, List.length_set]
    exact ih

theorem incr_fold_getElem? (k : Nat) (d : List Int) (j : Nat) :
    ((List.range k).foldl (fun d i => d.set i (d.getD i 0 + 1)) d)[j]? =
      (d[j]?).map (fun x => if j < k then x + 1 else x) := by
  induction k with
  | zero => simp
  | succ k ih =>
    rw [List.range_succ, List.foldl_append]
    simp only [List.foldl_cons, List.foldl_nil]
    rw [List.getElem?_set]
    by_cases hkj : k = j
    · subst hkj
      simp only [if_true, incr_fold_length]
      by_cases hlt : k < d.length
      · have h1 := ih
        simp only [lt_irrefl, if_false] at h1
        rw [List.getD_eq_getElem?_getD, h1]
        simp [hlt, List.getElem?_eq_getElem hlt]
      · have : d[k]? = none := List.getElem?_eq_none (by omega)
        simp [hlt, this]
    · simp only [hkj, if_false, ih]
      generalize d[j]? = o
      cases o with
      | none => simp
      | some x =>
        have : (j < k + 1) = (j < k) := by
          apply propext; omega
        simp [this]

theorem distr_eq (n size : Int) (hn : 0 ≤ n) (hs : 1 ≤ size) :
    distr n size =
      List.replicate (n % size).toNat (n / size + 1) ++
        List.replicate (size.toNat - (n % size).toNat) (n / size) := by
  have hs0 : (0 : Int) ≤ size := by omega
  have hr : n % size < size := Int.emod_lt_of_pos n (by omega)
  have hr0 : 0 ≤ n % size := Int.emod_nonneg n (by omega)
  apply List.ext_getElem?
  intro j
  unfold distr
  rw [incr_fold_getElem?, Int.tdiv_eq_ediv hn hs0, Int.tmod_eq_emod hn hs0]
  rw [List.getElem?_append, List.getElem?_replicate, List.getElem?_replicate,
    List.getElem?_replicate]
  simp only [List.length_replicate]
  by_cases h1 : j < (n % size).toNat
  · have h2 : j < size.toNat := by omega
    simp [h1, h2]
  · have h3 : (j - (n % size).toNat < size.toNat - (n % size).toNat) ↔ j < size.toNat := by omega
    by_cases h2 : j < size.toNat
    · simp [h1, h2, h3]
    · simp [h1, h2, h3]

theorem sum_take_succ_getD (cs : List Int) (k : Nat) :
    (cs.take (k + 1)).sum = (cs.take k).sum + cs.getD k 0 := by
  rw [List.take_succ, List.sum_append, List.getD_eq_getElem?_getD]
  generalize cs[k]? = o
  cases o with
  | none => simp
  | some x => simp

theorem displ_fold_length (cs : List Int) (k : Nat) (d : List Int) :
    ((List.range' 1 k).foldl
      (fun d i => d.set i (d.getD (i - 1) 0 + cs.getD (i - 1) 0)) d).length = d.length := by
  induction k with
  | zero => simp
  | succ k ih =>
    rw [List.range'_concat, List.foldl_append]
    simp only [List.foldl_cons, List.foldl_nil, List.length_set]
    exact ih

theorem displ_fold_getElem? (cs : List Int) (P k : Nat) (hk : k ≤ P - 1) (j : Nat) :
    ((List.range' 1 k).foldl
      (fun d i => d.set i (d.getD (i - 1) 0 + cs.getD (i - 1) 0)) (List.replicate P 0))[j]? =
      if j < P then some (if j ≤ k then (cs.take j).sum else 0) else none := by
  induction k generalizing j with
  | zero =>
    simp only [List.range'_zero, List.foldl_nil, List.getElem?_replicate]
    by_cases hj : j < P
    · by_cases h0 : j ≤ 0
      · have : j = 0 := by omega
        subst this
        simp [hj]
      · simp [hj, h0]
    · simp [hj]
  | succ k ih =>
    have ih' := ih (by omega)
    rw [List.range'_concat, List.foldl_append]
    simp only [List.foldl_cons, List.foldl_nil, Nat.one_mul]
    rw [List.getElem?_set, displ_fold_length, List.length_replicate]
    have hk1 : 1 + k - 1 = k := by omega
    rw [hk1]
    by_cases hkj : 1 + k = j
    · subst hkj
      have hP : 1 + k < P := by omega
      have hkP : k < P := by omega
      simp only [if_true, hP, le_refl]
      rw [List.getD_eq_getElem?_getD, ih' k]
      simp only [hkP, if_true, le_refl, Option.getD_some]
      rw [Nat.add_comm 1 k, sum_take_succ_getD]
      simp
    · simp only [hkj, if_false, ih' j]
      by_cases hj : j < P
      · simp only [hj, if_true]
        by_cases hjk : j ≤ k
        · have : j ≤ k + 1 := by omega
          simp [hjk, this]
        · have : ¬ j ≤ k + 1 := by omega
          simp [hjk, this]
      · simp [hj]

theorem displ_getElem? (n size : Int) (j : Nat) :
    (displ n size)[j]? =
      if j < size.toNat then some (((distr n size).take j).sum) else none := by
  unfold displ
  rw [displ_fold_getElem? (distr n size) size.toNat (size.toNat - 1) (le_refl _) j]
  by_cases hj : j < size.toNat
  · have : j ≤ size.toNat - 1 := by omega
    simp [hj, this]
  · simp [hj]

theorem displ_length (n size : Int) : (displ n size).length = size.toNat := by
  unfold displ
  rw [displ_fold_length, List.length_replicate]

theorem distr_length (n size : Int) : (distr n size).length = size.toNat := by
  unfold distr
  rw [incr_fold_length, List.length_replicate]

theorem distr_sum (n size : Int) (hn : 0 ≤ n) (hs : 1 ≤ size) : (distr n size).sum = n := by
  have hr : n % size < size := Int.emod_lt_of_pos n (by omega)
  have hr0 : 0 ≤ n % size := Int.emod_nonneg n (by omega)
  rw [distr_eq n size hn hs, List.sum_append, List.sum_replicate, List.sum_replicate]
  simp only [nsmul_eq_mul]
  have h1 : (((n % size).toNat : Nat) : Int) = n % size := Int.toNat_of_nonneg hr0
  have h2 : ((size.toNat - (n % size).toNat : Nat) : Int) = size - n % size := by
    rw [Nat.cast_sub (by omega)]
    rw [h1, Int.toNat_of_nonneg (by omega)]
  rw [h1, h2]
  have := Int.emod_add_ediv n size
  nlinarith [this]

/-! ## The maximum of a sequence -/

section Max

variable {T : Type} [LinearOrder T]

theorem maximum_mem (x y : T) : maximum x y = x ∨ maximum x y = y := by
  unfold maximum
  split <;> simp

theorem le_maximum_left (x y : T) : x ≤ maximum x y := by
  unfold maximum
  split
  · exact le_of_lt (by assumption)
  · exact le_refl x

theorem le_maximum_right (x y : T) : y ≤ maximum x y := by
  unfold maximum
  split
  · exact le_refl y
  · exact not_lt.mp (by assumption)

theorem foldl_maximum_isMaxOf (xs : List T) (x : T) :
    IsMaxOf (xs.foldl maximum x) (x :: xs) := by
  induction xs generalizing x with
  | nil => exact ⟨by simp, by simp⟩
  | cons y ys ih =>
    obtain ⟨hmem, hle⟩ := ih (maximum x y)
    rw [List.foldl_cons]
    refine ⟨?_, ?_⟩
    · rcases List.mem_cons.mp hmem with h | h
      · rw [h]
        rcases maximum_mem x y with h' | h'
        · rw [h']; simp
        · rw [h']; simp
      · simp [h]
    · intro z hz
      have hxy := hle (maximum x y) (by simp)
      rcases List.mem_cons.mp hz with h | h
      · rw [h]; exact le_trans (le_maximum_left x y) hxy
      · rcases List.mem_cons.mp h with h | h
        · rw [h]; exact le_trans (le_maximum_right x y) hxy
        · exact hle z (by simp [h])

theorem max_element_cons (x : T) (xs : List T) :
    max_element (x :: xs) = some (xs.foldl maximum x) := rfl

theorem max_element_isMaxOf (m : List T) (hm : m ≠ []) :
    ∃ v, max_element m = some v ∧ IsMaxOf v m := by
  cases m with
  | nil => exact absurd rfl hm
  | cons x xs => exact ⟨_, max_element_cons x xs, foldl_maximum_isMaxOf xs x⟩

theorem reduce_maximum_isMaxOf (vs : List T) (hvs : vs ≠ []) :
    ∃ g, reduce maximum vs = some g ∧ IsMaxOf g vs := by
  cases vs with
  | nil => exact absurd rfl hvs
  | cons x xs => exact ⟨_, rfl, foldl_maximum_isMaxOf xs x⟩

theorem isMaxOf_unique {v w : T} {m : List T} (hv : IsMaxOf v m) (hw : IsMaxOf w m) : v = w :=
  le_antisymm (hw.2 v hv.1) (hv.2 w hw.1)

end Max

/-! ## Consecutive slices -/

theorem running_offsets_length (off : Int) (cnts : List Int) :
    (running_offsets off cnts).length = cnts.length := by
  induction cnts generalizing off with
  | nil => rfl
  | cons x xs ih => simp [running_offsets, ih]

theorem running_offsets_getElem? (off : Int) (cnts : List Int) (j : Nat) :
    (running_offsets off cnts)[j]? =
      if j < cnts.length then some (off + (cnts.take j).sum) else none := by
  induction cnts generalizing off j with
  | nil => simp [running_offsets]
  | cons x xs ih =>
    cases j with
    | zero => simp [running_offsets]
    | succ j =>
      simp only [running_offsets, List.getElem?_cons_succ, ih, List.length_cons,
        Nat.add_lt_add_iff_right, List.take_succ_cons, List.sum_cons]
      split
      · congr 1; ring
      · rfl

theorem displ_eq_running_offsets (n size : Int) :
    displ n size = running_offsets 0 (distr n size) := by
  apply List.ext_getElem?
  intro j
  rw [displ_getElem?, running_offsets_getElem?, distr_length]
  simp

theorem zip_running_offsets_bounds (cnts : List Int) (hc : ∀ x ∈ cnts, 0 ≤ x) (off : Int) :
    ∀ cd ∈ cnts.zip (running_offsets off cnts),
      0 ≤ cd.1 ∧ off ≤ cd.2 ∧ cd.2 + cd.1 ≤ off + cnts.sum := by
  induction cnts generalizing off with
  | nil => simp [running_offsets]
  | cons x xs ih =>
    have hx : 0 ≤ x := hc x (by simp)
    have hxs : ∀ y ∈ xs, 0 ≤ y := fun y hy => hc y (by simp [hy])
    have hsum : 0 ≤ xs.sum := List.sum_nonneg hxs
    intro cd hcd
    simp only [running_offsets, List.zip_cons_cons, List.mem_cons] at hcd
    rcases hcd with h | h
    · subst h
      simp only [List.sum_cons]
      omega
    · obtain ⟨h1, h2, h3⟩ := ih hxs (off + x) cd h
      simp only [List.sum_cons]
      omega

theorem flatten_slices {T : Type} (m : List T) (cnts : List Int) (hc : ∀ x ∈ cnts, 0 ≤ x)
    (off : Int) (hoff : 0 ≤ off) :
    ((cnts.zip (running_offsets off cnts)).map
        (fun cd => (m.drop cd.2.toNat).take cd.1.toNat)).flatten =
      (m.drop off.toNat).take cnts.sum.toNat := by
  induction cnts generalizing off with
  | nil => simp [running_offsets]
  | cons x xs ih =>
    have hx : 0 ≤ x := hc x (by simp)
    have hxs : ∀ y ∈ xs, 0 ≤ y := fun y hy => hc y (by simp [hy])
    have hsum : 0 ≤ xs.sum := List.sum_nonneg hxs
    simp only [running_offsets, List.zip_cons_cons, List.map_cons, List.flatten_cons,
      List.sum_cons]
    rw [ih hxs (off + x) (by omega), Int.toNat_add hx hsum, List.take_add,
      Int.toNat_add hoff hx, List.drop_drop]

theorem distr_mem_bounds (n size : Int) (hn : 0 ≤ n) (hs : 1 ≤ size) :
    ∀ x ∈ distr n size, n / size ≤ x ∧ x ≤ n / size + 1 := by
  intro x hx
  rw [distr_eq n size hn hs, List.mem_append] at hx
  rcases hx with h | h
  · have := (List.mem_replicate.mp h).2
    omega
  · have := (List.mem_replicate.mp h).2
    omega

theorem distr_nonneg (n size : Int) (hn : 0 ≤ n) (hs : 1 ≤ size) :
    ∀ x ∈ distr n size, 0 ≤ x := by
  intro x hx
  have h1 := (distr_mem_bounds n size hn hs x hx).1
  have h2 : 0 ≤ n / size := Int.ediv_nonneg hn (by omega)
  omega

theorem scatterv_distr {T : Type} (m : List T) (size : Int) (hs : 1 ≤ size) :
    ∃ ls, scatterv m (distr m.length size) (displ m.length size) = some ls ∧
      ls.flatten = m ∧ ls.length = size.toNat ∧
      ∀ s ∈ ls, ((m.length : Int) / size).toNat ≤ s.length := by
  have hn : (0 : Int) ≤ m.length := Int.natCast_nonneg _
  have hnn := distr_nonneg m.length size hn hs
  have hb := zip_running_offsets_bounds (distr m.length size) hnn 0
  rw [distr_sum _ _ hn hs] at hb
  have hsc : scatterv m (distr m.length size) (displ m.length size) =
      some (((distr m.length size).zip (displ m.length size)).map
        (fun cd => (m.drop cd.2.toNat).take cd.1.toNat)) := by
    unfold scatterv
    rw [if_pos]
    rw [displ_eq_running_offsets, List.all_eq_true]
    intro cd hcd
    obtain ⟨h1, h2, h3⟩ := hb cd hcd
    exact decide_eq_true ⟨h1, h2, by omega⟩
  refine ⟨_, hsc, ?_, ?_, ?_⟩
  · rw [displ_eq_running_offsets, flatten_slices m _ hnn 0 (le_refl 0),
      distr_sum _ _ hn hs]
    simp
  · simp [distr_length, displ_length]
  · intro s hs'
    rw [displ_eq_running_offsets] at hs'
    obtain ⟨cd, hcd, rfl⟩ := List.mem_map.mp hs'
    obtain ⟨h1, h2, h3⟩ := hb cd hcd
    have hd := (distr_mem_bounds m.length size hn hs cd.1 (List.of_mem_zip hcd).1).1
    rw [List.length_take, List.length_drop]
    omega

theorem running_offsets_mem_bounds (cnts : List Int) (hc : ∀ x ∈ cnts, 0 ≤ x) (off : Int) :
    ∀ x ∈ running_offsets off cnts, off ≤ x ∧ x ≤ off + cnts.sum := by
  induction cnts generalizing off with
  | nil => simp [running_offsets]
  | cons y ys ih =>
    have hy : 0 ≤ y := hc y (by simp)
    have hys : ∀ z ∈ ys, 0 ≤ z := fun z hz => hc z (by simp [hz])
    have hsum : 0 ≤ ys.sum := List.sum_nonneg hys
    intro x hx
    simp only [running_offsets, List.mem_cons] at hx
    simp only [List.sum_cons]
    rcases hx with h | h
    · omega
    · have := ih hys (off + y) x h
      omega

/-- The additions `++distr[i]` and `displ[i - 1] + distr[i - 1]` of `run` do not overflow:
for `0 ≤ n` and `1 ≤ size` every entry of `distr` and of `displ` lies in `[0, n]`. -/
theorem distr_displ_in_range (n size : Int) (hn : 0 ≤ n) (hs : 1 ≤ size) :
    (∀ x ∈ distr n size, 0 ≤ x ∧ x ≤ n) ∧ (∀ x ∈ displ n size, 0 ≤ x ∧ x ≤ n) := by
  have hr : n % size < size := Int.emod_lt_of_pos n (by omega)
  have hr0 : 0 ≤ n % size := Int.emod_nonneg n (by omega)
  have hq : 0 ≤ n / size := Int.ediv_nonneg hn (by omega)
  have hdecomp := Int.emod_add_ediv n size
  constructor
  · intro x hx
    rw [distr_eq n size hn hs, List.mem_append] at hx
    rcases hx with h | h
    · obtain ⟨hne, rfl⟩ := List.mem_replicate.mp h
      have hpos : 0 < n % size := by
        rcases Nat.pos_of_ne_zero hne with h0
        omega
      constructor
      · omega
      · nlinarith
    · obtain ⟨_, rfl⟩ := List.mem_replicate.mp h
      constructor
      · omega
      · nlinarith
  · intro x hx
    rw [displ_eq_running_offsets] at hx
    have := running_offsets_mem_bounds (distr n size) (distr_nonneg n size hn hs) 0 x hx
    rw [distr_sum n size hn hs] at this
    omega

section Global

variable {T : Type} [LinearOrder T] [Zero T]

theorem parallel_get_max_isMaxOf (s : List T) (hs : s ≠ []) :
    IsMaxOf (MaxValueOfMatrixElementsParallel.get_max_matrix_element s) s := by
  obtain ⟨v, hv, hmax⟩ := max_element_isMaxOf s hs
  unfold MaxValueOfMatrixElementsParallel.get_max_matrix_element
  rw [hv]
  exact hmax

theorem parallel_get_max_nil : MaxValueOfMatrixElementsParallel.get_max_matrix_element ([] : List T) = 0 := rfl

theorem global_max_correct (ls : List (List T)) (m : List T) (hflat : ls.flatten = m)
    (v : T) (hv : IsMaxOf v m) (hcond : (∀ s ∈ ls, s ≠ []) ∨ ∃ x ∈ m, 0 ≤ x)
    (g : T) (hg : IsMaxOf g (ls.map MaxValueOfMatrixElementsParallel.get_max_matrix_element)) : g = v := by
  apply le_antisymm
  · obtain ⟨s, hs, rfl⟩ := List.mem_map.mp hg.1
    by_cases hne : s = []
    · subst hne
      rw [parallel_get_max_nil]
      rcases hcond with h | ⟨x, hx, h0⟩
      · exact absurd rfl (h [] hs)
      · exact le_trans h0 (hv.2 x hx)
    · have hmem := (parallel_get_max_isMaxOf s hne).1
      apply hv.2
      rw [← hflat]
      exact List.mem_flatten.mpr ⟨s, hs, hmem⟩
  · have hvm := hv.1
    rw [← hflat] at hvm
    obtain ⟨s, hs, hvs⟩ := List.mem_flatten.mp hvm
    have hne : s ≠ [] := List.ne_nil_of_mem hvs
    have h1 := (parallel_get_max_isMaxOf s hne).2 v hvs
    exact le_trans h1 (hg.2 _ (List.mem_map.mpr ⟨s, hs, rfl⟩))

end Global

section Stages

variable {T : Type}

theorem for_each_rank_others
    (f : Int → MaxValueOfMatrixElementsParallel T →
      Option (Bool × MaxValueOfMatrixElementsParallel T))
    (hf : ∀ rank t, rank ≠ 0 → f rank t = some (true, t))
    (k : Int) (hk : 1 ≤ k) (ts : List (MaxValueOfMatrixElementsParallel T)) :
    MaxValueOfMatrixElementsParallel.for_each_rank f k ts =
      some (ts.map (fun t => (true, t))) := by
  induction ts generalizing k with
  | nil => rfl
  | cons t ts ih =>
    unfold MaxValueOfMatrixElementsParallel.for_each_rank
    rw [hf k t (by omega), ih (k + 1) (by omega)]
    rfl

theorem for_each_rank_root
    (f : Int → MaxValueOfMatrixElementsParallel T →
      Option (Bool × MaxValueOfMatrixElementsParallel T))
    (hf : ∀ rank t, rank ≠ 0 → f rank t = some (true, t))
    (root : MaxValueOfMatrixElementsParallel T) (others : List (MaxValueOfMatrixElementsParallel T))
    (r : Bool × MaxValueOfMatrixElementsParallel T) (hr : f 0 root = some r) :
    MaxValueOfMatrixElementsParallel.for_each_rank f 0 (root :: others) =
      some (r :: others.map (fun t => (true, t))) := by
  unfold MaxValueOfMatrixElementsParallel.for_each_rank
  rw [hr, for_each_rank_others f hf (0 + 1) (by omega) others]

theorem validation_other (rank : Int) (t : MaxValueOfMatrixElementsParallel T) (h : rank ≠ 0) :
    MaxValueOfMatrixElementsParallel.validation rank t = some (true, t) := by
  unfold MaxValueOfMatrixElementsParallel.validation
  rw [if_neg h]

theorem pre_processing_other (rank : Int) (t : MaxValueOfMatrixElementsParallel T)
    (h : rank ≠ 0) :
    MaxValueOfMatrixElementsParallel.pre_processing rank t = some (true, t) := by
  unfold MaxValueOfMatrixElementsParallel.pre_processing
  rw [if_neg h]

theorem post_processing_other (rank : Int) (t : MaxValueOfMatrixElementsParallel T)
    (h : rank ≠ 0) :
    MaxValueOfMatrixElementsParallel.post_processing rank t = some (true, t) := by
  unfold MaxValueOfMatrixElementsParallel.post_processing
  rw [if_neg h]

theorem all_flags_map_true (ts : List (MaxValueOfMatrixElementsParallel T)) :
    (ts.map (fun t => ((true, t) : Bool × MaxValueOfMatrixElementsParallel T))).all
      (fun r => r.1) = true := by
  simp

theorem map_snd_map_true (ts : List (MaxValueOfMatrixElementsParallel T)) :
    (ts.map (fun t => ((true, t) : Bool × MaxValueOfMatrixElementsParallel T))).map
      (fun r => r.2) = ts := by
  simp

end Stages

section Pipeline

variable {T : Type} [LinearOrder T] [Zero T]

theorem pipeline_validation_false
    (root r0 : MaxValueOfMatrixElementsParallel T)
    (others : List (MaxValueOfMatrixElementsParallel T))
    (hv : MaxValueOfMatrixElementsParallel.validation 0 root = some (false, r0)) :
    MaxValueOfMatrixElementsParallel.pipeline (root :: others) = some (false, r0 :: others) := by
  unfold MaxValueOfMatrixElementsParallel.pipeline
  rw [for_each_rank_root _ validation_other root others _ hv]
  simp

theorem pipeline_pre_processing_false
    (root r0 r1 : MaxValueOfMatrixElementsParallel T)
    (others : List (MaxValueOfMatrixElementsParallel T))
    (hv : MaxValueOfMatrixElementsParallel.validation 0 root = some (true, r0))
    (hp : MaxValueOfMatrixElementsParallel.pre_processing 0 r0 = some (false, r1)) :
    MaxValueOfMatrixElementsParallel.pipeline (root :: others) = some (false, r1 :: others) := by
  unfold MaxValueOfMatrixElementsParallel.pipeline
  rw [for_each_rank_root _ validation_other root others _ hv]
  simp only [List.all_cons, all_flags_map_true, List.map_cons, map_snd_map_true]
  rw [for_each_rank_root _ pre_processing_other r0 others _ hp]
  simp

theorem pipeline_of_stages
    (root r0 r1 r2 r3 : MaxValueOfMatrixElementsParallel T)
    (others : List (MaxValueOfMatrixElementsParallel T))
    (tail : List (Bool × MaxValueOfMatrixElementsParallel T))
    (hv : MaxValueOfMatrixElementsParallel.validation 0 root = some (true, r0))
    (hp : MaxValueOfMatrixElementsParallel.pre_processing 0 r0 = some (true, r1))
    (hr : MaxValueOfMatrixElementsParallel.run (r1 :: others) = some ((true, r2) :: tail))
    (htail : ∀ e ∈ tail, e.1 = true)
    (hpost : MaxValueOfMatrixElementsParallel.post_processing 0 r2 = some (true, r3)) :
    MaxValueOfMatrixElementsParallel.pipeline (root :: others) =
      some (true, r3 :: tail.map (fun r => r.2)) := by
  have hall : tail.all (fun r => r.1) = true := by
    rw [List.all_eq_true]
    exact htail
  unfold MaxValueOfMatrixElementsParallel.pipeline
  rw [for_each_rank_root _ validation_other root others _ hv]
  simp only [List.all_cons, all_flags_map_true, List.map_cons, map_snd_map_true]
  rw [for_each_rank_root _ pre_processing_other r0 others _ hp]
  simp only [List.all_cons, all_flags_map_true, List.map_cons, map_snd_map_true, hr, hall]
  rw [for_each_rank_root _ post_processing_other r2 _ _ hpost]
  simp

theorem run_cons (root : MaxValueOfMatrixElementsParallel T)
    (others : List (MaxValueOfMatrixElementsParallel T)) (ls : List (List T)) (g : T)
    (hs : scatterv root.matrix
        (distr (mulInt root.rows_ root.cols_) ((others.length + 1 : Nat) : Int))
        (displ (mulInt root.rows_ root.cols_) ((others.length + 1 : Nat) : Int)) = some ls)
    (hg : reduce maximum (ls.map MaxValueOfMatrixElementsParallel.get_max_matrix_element) =
      some g) :
    ∃ r2 tail, MaxValueOfMatrixElementsParallel.run (root :: others) = some ((true, r2) :: tail) ∧
      r2.taskData = root.taskData ∧ r2.global_max_ = g ∧ ∀ e ∈ tail, e.1 = true := by
  cases ls with
  | nil => simp [reduce] at hg
  | cons l ls =>
    have hg' : g = List.foldl maximum
        (MaxValueOfMatrixElementsParallel.get_max_matrix_element l)
        (List.map MaxValueOfMatrixElementsParallel.get_max_matrix_element ls) := by
      simpa [reduce] using hg.symm
    unfold MaxValueOfMatrixElementsParallel.run
    simp only [List.length_cons, hs, hg, List.map_cons, List.zip_cons_cons, List.enum_cons]
    refine ⟨_, _, rfl, rfl, ?_, ?_⟩
    · rw [hg']
      simp only [if_true]
    · intro e he
      obtain ⟨x, _, rfl⟩ := List.mem_map.mp he
      rfl

end Pipeline

theorem mulInt_eq_mul (a b : Int) (h0 : 0 ≤ a * b) (h1 : a * b ≤ INT_MAX) :
    mulInt a b = a * b := by
  unfold mulInt wrapInt
  unfold INT_MAX at h1
  generalize a * b = x at h0 h1
  omega

section ValidInput

variable {T : Type}

theorem read_shape (td : TaskData T) (rows cols : Int) (bufs : List (Buffer T))
    (hin : td.inputs = Buffer.ints [rows, cols] :: bufs) :
    td.read_int 0 0 = some rows ∧ td.read_int 0 1 = some cols := by
  unfold TaskData.read_int
  rw [hin]
  simp

theorem read_matrix (td : TaskData T) (b : Buffer T) (m : List T) (bufs : List (Buffer T))
    (count : Int) (hin : td.inputs = b :: Buffer.elems m :: bufs)
    (h0 : 0 ≤ count) (h1 : count ≤ m.length) :
    td.read_elems 1 count = some (m.take count.toNat) := by
  unfold TaskData.read_elems
  rw [hin]
  simp [h0, h1]

theorem parallel_post_processing_root (self : MaxValueOfMatrixElementsParallel T)
    (o : T) (slots : List T) (outs : List (List T))
    (hout : self.taskData.outputs = (o :: slots) :: outs) :
    MaxValueOfMatrixElementsParallel.post_processing 0 self =
      some (true, { self with
        taskData := { self.taskData with outputs := (self.global_max_ :: slots) :: outs } }) := by
  unfold MaxValueOfMatrixElementsParallel.post_processing TaskData.write_output0
  simp [hout]

theorem parallel_validation_valid (self : MaxValueOfMatrixElementsParallel T)
    (rows cols : Int) (bufs : List (Buffer T)) (out : List T) (outs : List (List T))
    (hin : self.taskData.inputs = Buffer.ints [rows, cols] :: bufs)
    (hout : self.taskData.outputs = out :: outs) (hrows : 0 < rows) (hcols : 0 < cols) :
    MaxValueOfMatrixElementsParallel.validation 0 self = some (true, self) := by
  obtain ⟨h0, h1⟩ := read_shape self.taskData rows cols bufs hin
  unfold MaxValueOfMatrixElementsParallel.validation
  simp [hin, hout, h0, h1, not_le.mpr hrows, not_le.mpr hcols]

theorem parallel_pre_processing_valid (self : MaxValueOfMatrixElementsParallel T)
    (rows cols : Int) (m : List T) (bufs : List (Buffer T))
    (hin : self.taskData.inputs = Buffer.ints [rows, cols] :: Buffer.elems m :: bufs)
    (hrows : 0 < rows) (hcols : 0 < cols)
    (h0 : 0 ≤ mulInt rows cols) (h1 : mulInt rows cols ≤ m.length) :
    MaxValueOfMatrixElementsParallel.pre_processing 0 self =
      some (true, { self with rows_ := rows, cols_ := cols,
                              matrix := m.take (mulInt rows cols).toNat }) := by
  obtain ⟨hr, hc⟩ := read_shape self.taskData rows cols _ hin
  have hm := read_matrix self.taskData _ m bufs (mulInt rows cols) hin h0 h1
  unfold MaxValueOfMatrixElementsParallel.pre_processing
  simp [hr, hc, hm, not_le.mpr hrows, not_le.mpr hcols]

variable [LinearOrder T] [Zero T]

/-- The distributed pipeline on a well-formed task: with `m` the matrix stored by
`pre_processing`, the coordinator's output is the maximum of the local maxima of the slices
`ls` that `run` scatters, and the slices concatenate to `m`. -/
theorem parallel_output_eq (root : MaxValueOfMatrixElementsParallel T)
    (others : List (MaxValueOfMatrixElementsParallel T))
    (rows cols : Int) (buf : List T) (bufs : List (Buffer T))
    (o : T) (slots : List T) (outs : List (List T))
    (hin : root.taskData.inputs = Buffer.ints [rows, cols] :: Buffer.elems buf :: bufs)
    (hout : root.taskData.outputs = (o :: slots) :: outs)
    (hrows : 0 < rows) (hcols : 0 < cols)
    (hn0 : 0 ≤ mulInt rows cols) (hn1 : mulInt rows cols ≤ buf.length) :
    ∃ (ls : List (List T)) (g : T),
      ls.flatten = buf.take (mulInt rows cols).toNat ∧ ls.length = others.length + 1 ∧
      (∀ s ∈ ls, (mulInt rows cols / ((others.length + 1 : Nat) : Int)).toNat ≤ s.length) ∧
      IsMaxOf g (ls.map MaxValueOfMatrixElementsParallel.get_max_matrix_element) ∧
      MaxValueOfMatrixElementsParallel.output (root :: others) = some g := by
  have hsize : (1 : Int) ≤ ((others.length + 1 : Nat) : Int) := by omega
  have hmlen : (((buf.take (mulInt rows cols).toNat).length : Nat) : Int) = mulInt rows cols := by
    rw [List.length_take]
    omega
  obtain ⟨ls, hsc, hflat, hlslen, hslice⟩ :=
    scatterv_distr (buf.take (mulInt rows cols).toNat) _ hsize
  rw [hmlen] at hsc hslice
  have hne : ls.map MaxValueOfMatrixElementsParallel.get_max_matrix_element ≠ [] := by
    intro h
    have := congrArg List.length h
    simp [hlslen] at this
  obtain ⟨g, hred, hg⟩ := reduce_maximum_isMaxOf _ hne
  have hv := parallel_validation_valid root rows cols _ _ _ hin hout hrows hcols
  have hp := parallel_pre_processing_valid root rows cols buf bufs hin hrows hcols hn0 hn1
  obtain ⟨r2, tail, hrun, htd, hgm, htail⟩ := run_cons
    ({ root with rows_ := rows, cols_ := cols, matrix := buf.take (mulInt rows cols).toNat } :
      MaxValueOfMatrixElementsParallel T) others ls g hsc hred
  have hpost := parallel_post_processing_root r2 o slots outs (by rw [htd]; exact hout)
  have hpipe := pipeline_of_stages root root _ r2 _ others tail hv hp hrun htail hpost
  refine ⟨ls, g, hflat, by simpa using hlslen, hslice, hg, ?_⟩
  unfold MaxValueOfMatrixElementsParallel.output
  rw [hpipe]
  simp [TaskData.output0, hgm]

end ValidInput

section ValidInputSequential

variable {T : Type} [LinearOrder T]

/-- The sequential pipeline on a well-formed task: the output is
`*std::max_element` of the matrix stored by `pre_processing`. -/
theorem sequential_output_eq (self : MaxValueOfMatrixElementsSequential T)
    (rows cols : Int) (buf : List T) (bufs : List (Buffer T))
    (o : T) (slots : List T) (outs : List (List T))
    (hin : self.taskData.inputs = Buffer.ints [rows, cols] :: Buffer.elems buf :: bufs)
    (hout : self.taskData.outputs = (o :: slots) :: outs)
    (hrows : 0 < rows) (hcols : 0 < cols)
    (hn0 : 0 ≤ mulInt rows cols) (hn1 : mulInt rows cols ≤ buf.length) :
    MaxValueOfMatrixElementsSequential.output self =
      max_element (buf.take (mulInt rows cols).toNat) := by
  obtain ⟨hr, hc⟩ := read_shape self.taskData rows cols _ hin
  have hm := read_matrix self.taskData _ buf bufs (mulInt rows cols) hin hn0 hn1
  unfold MaxValueOfMatrixElementsSequential.output MaxValueOfMatrixElementsSequential.pipeline
    MaxValueOfMatrixElementsSequential.validation
    MaxValueOfMatrixElementsSequential.pre_processing
    MaxValueOfMatrixElementsSequential.run
    MaxValueOfMatrixElementsSequential.post_processing
    MaxValueOfMatrixElementsSequential.get_max_matrix_element
  simp only [hin, hout, hr, hc, hm, not_le.mpr hrows, not_le.mpr hcols, List.isEmpty_cons,
    Bool.not_false, Bool.and_self, or_self, if_false]
  cases hmax : max_element (buf.take (mulInt rows cols).toNat) with
  | none => rfl
  | some v => simp [TaskData.write_output0, TaskData.output0, hout]

end ValidInputSequential

/-- Correctness of the distributed pipeline where no product overflows and no empty slice
can win the reduction. -/
theorem parallel_output_correct {T : Type} [LinearOrder T] [Zero T]
    (root : MaxValueOfMatrixElementsParallel T)
    (others : List (MaxValueOfMatrixElementsParallel T))
    (rows cols : Int) (m : List T) (o : T) (slots : List T) (outs : List (List T))
    (hin : root.taskData.inputs = [Buffer.ints [rows, cols], Buffer.elems m])
    (hout : root.taskData.outputs = (o :: slots) :: outs)
    (hrows : 0 < rows) (hcols : 0 < cols) (hlen : (m.length : Int) = rows * cols)
    (hfit : rows * cols ≤ INT_MAX)
    (hcond : ((others.length + 1 : Nat) : Int) ≤ rows * cols ∨ ∃ x ∈ m, 0 ≤ x) :
    ∃ v, MaxValueOfMatrixElementsParallel.output (root :: others) = some v ∧ IsMaxOf v m := by
  have hpos : 0 < rows * cols := Int.mul_pos hrows hcols
  have hmul : mulInt rows cols = rows * cols := mulInt_eq_mul rows cols (le_of_lt hpos) hfit
  have hne : m ≠ [] := by
    intro h
    rw [h] at hlen
    simp at hlen
    omega
  obtain ⟨ls, g, hflat, _, hslice, hg, hout'⟩ :=
    parallel_output_eq root others rows cols m [] o slots outs hin hout hrows hcols
      (by rw [hmul]; exact le_of_lt hpos) (by rw [hmul, hlen])
  have htake : m.take (mulInt rows cols).toNat = m := by
    rw [hmul, ← hlen]; simp
  rw [htake] at hflat
  obtain ⟨v, _, hv⟩ := max_element_isMaxOf m hne
  have hcond' : (∀ s ∈ ls, s ≠ []) ∨ ∃ x ∈ m, 0 ≤ x := by
    rcases hcond with h | h
    · left
      intro s hs hnil
      have h1 := hslice s hs
      rw [hnil, hmul, List.length_nil] at h1
      have h2 : 1 ≤ rows * cols / ((others.length + 1 : Nat) : Int) :=
        (Int.le_ediv_iff_mul_le (by omega)).mpr (by omega)
      omega
    · exact Or.inr h
  have hgv := global_max_correct ls m hflat v hv hcond' g hg
  exact ⟨g, hout', hgv ▸ hv⟩

/-- Correctness of the sequential pipeline where the product `rows_ * cols_` does not
overflow. -/
theorem sequential_output_correct {T : Type} [LinearOrder T]
    (self : MaxValueOfMatrixElementsSequential T)
    (rows cols : Int) (m : List T) (o : T) (slots : List T) (outs : List (List T))
    (hin : self.taskData.inputs = [Buffer.ints [rows, cols], Buffer.elems m])
    (hout : self.taskData.outputs = (o :: slots) :: outs)
    (hrows : 0 < rows) (hcols : 0 < cols) (hlen : (m.length : Int) = rows * cols)
    (hfit : rows * cols ≤ INT_MAX) :
    ∃ v, MaxValueOfMatrixElementsSequential.output self = some v ∧ IsMaxOf v m := by
  have hpos : 0 < rows * cols := Int.mul_pos hrows hcols
  have hmul : mulInt rows cols = rows * cols := mulInt_eq_mul rows cols (le_of_lt hpos) hfit
  have hne : m ≠ [] := by
    intro h
    rw [h] at hlen
    simp at hlen
    omega
  have hseq := sequential_output_eq self rows cols m [] o slots outs hin hout hrows hcols
    (by rw [hmul]; exact le_of_lt hpos) (by rw [hmul, hlen])
  have htake : m.take (mulInt rows cols).toNat = m := by
    rw [hmul, ← hlen]; simp
  rw [htake] at hseq
  obtain ⟨v, hv, hmax⟩ := max_element_isMaxOf m hne
  exact ⟨v, hseq.trans hv, hmax⟩

theorem mulInt_65536 : mulInt 65536 65536 = 0 := by decide

/-- On the `65536 × 65536` scenario the distributed pipeline stores an empty matrix and
outputs `0`. -/
theorem parallel_output_scenario_65536 :
    MaxValueOfMatrixElementsParallel.output
      [MaxValueOfMatrixElementsParallel.init scenario_65536 INT_MIN] = some 0 := by
  obtain ⟨ls, g, hflat, _, _, hg, hout⟩ :=
    parallel_output_eq (MaxValueOfMatrixElementsParallel.init scenario_65536 INT_MIN) []
      65536 65536 (List.replicate 4294967296 1) [] 7 [] [] rfl rfl (by decide) (by decide)
      (by rw [mulInt_65536]) (by rw [mulInt_65536]; exact Int.natCast_nonneg _)
  rw [hout]
  rw [mulInt_65536] at hflat
  obtain ⟨s, hs, hgs⟩ := List.mem_map.mp hg.1
  have hnil : s = [] := by
    cases s with
    | nil => rfl
    | cons x xs =>
      have hx : x ∈ ls.flatten := List.mem_flatten.mpr ⟨_, hs, by simp⟩
      rw [hflat] at hx
      exact absurd hx (List.not_mem_nil x)
  rw [hnil] at hgs
  rw [← hgs]
  rfl

/-- On the `65536 × 65536` scenario the sequential pipeline stores an empty matrix and
`run` dereferences the end iterator. -/
theorem sequential_output_scenario_65536 :
    MaxValueOfMatrixElementsSequential.output
      (MaxValueOfMatrixElementsSequential.init scenario_65536) = none := by
  rw [sequential_output_eq (MaxValueOfMatrixElementsSequential.init scenario_65536)
      65536 65536 (List.replicate 4294967296 1) [] 7 [] [] rfl rfl (by decide) (by decide)
      (by rw [mulInt_65536]) (by rw [mulInt_65536]; exact Int.natCast_nonneg _)]
  rw [mulInt_65536]
  rfl

theorem scenario_65536_length :
    ((List.replicate 4294967296 (1 : Int)).length : Int) = 65536 * 65536 := by
  rw [List.length_replicate]
  rfl

theorem scenario_65536_not_isMaxOf_zero : ¬ IsMaxOf 0 (List.replicate 4294967296 (1 : Int)) := by
  intro h
  have := h.1
  rw [List.mem_replicate] at this
  omega

/-! ## C1 -/

/-- C1 (amended): for a matrix with `rows > 0`, `cols > 0` whose `rows * cols` elements fit
the `int` range, and `p = others.length + 1 ≥ 1` processes such that `p ≤ rows * cols` or
some element is `≥ 0`, the distributed pipeline writes the maximum of the flattened matrix
to `outputs[0][0]` at the coordinator. -/
theorem parallel_output_is_maximum {T : Type} [LinearOrder T] [Zero T]
    (root : MaxValueOfMatrixElementsParallel T)
    (others : List (MaxValueOfMatrixElementsParallel T))
    (rows cols : Int) (m : List T) (o : T) (slots : List T) (outs : List (List T))
    (hin : root.taskData.inputs = [Buffer.ints [rows, cols], Buffer.elems m])
    (hout : root.taskData.outputs = (o :: slots) :: outs)
    (hrows : 0 < rows) (hcols : 0 < cols) (hlen : (m.length : Int) = rows * cols)
    (hfit : rows * cols ≤ INT_MAX)
    (hcond : ((others.length + 1 : Nat) : Int) ≤ rows * cols ∨ ∃ x ∈ m, 0 ≤ x) :
    ∃ v, MaxValueOfMatrixElementsParallel.output (root :: others) = some v ∧ IsMaxOf v m :=
  parallel_output_correct root others rows cols m o slots outs hin hout hrows hcols hlen hfit
    hcond

/-- C1 (witness): the 2 × 3 matrix `[[1,7,3],[9,2,5]]` on two processes. -/
theorem parallel_output_is_maximum_witness :
    ∃ v, MaxValueOfMatrixElementsParallel.output
        [MaxValueOfMatrixElementsParallel.init scenario_2x3 INT_MIN,
         MaxValueOfMatrixElementsParallel.init no_task_data INT_MIN] = some v ∧
      IsMaxOf v [1, 7, 3, 9, 2, 5] :=
  parallel_output_is_maximum (MaxValueOfMatrixElementsParallel.init scenario_2x3 INT_MIN)
    [MaxValueOfMatrixElementsParallel.init no_task_data INT_MIN] 2 3 [1, 7, 3, 9, 2, 5] 0 [] []
    rfl rfl (by decide) (by decide) (by decide) (by decide) (Or.inl (by decide))

/-- C1 (counterexample): the claim fails for the matrix `[[-5]]` on two processes, where the
output is `0`, and for a `65536 × 65536` matrix of ones, where the 32-bit product
`rows_ * cols_` is `0` and the output is `0`. -/
theorem parallel_output_not_maximum :
    (MaxValueOfMatrixElementsParallel.output
        [MaxValueOfMatrixElementsParallel.init scenario_negative INT_MIN,
         MaxValueOfMatrixElementsParallel.init no_task_data INT_MIN] = some 0 ∧
      ¬ IsMaxOf 0 [(-5 : Int)]) ∧
    (MaxValueOfMatrixElementsParallel.output
        [MaxValueOfMatrixElementsParallel.init scenario_65536 INT_MIN] = some 0 ∧
      ((List.replicate 4294967296 (1 : Int)).length : Int) = 65536 * 65536 ∧
      ¬ IsMaxOf 0 (List.replicate 4294967296 (1 : Int))) := by
  refine ⟨⟨by decide, ?_⟩, parallel_output_scenario_65536, scenario_65536_length,
    scenario_65536_not_isMaxOf_zero⟩
  intro h
  have := h.1
  simp at this

/-! ## C2 -/

/-- C2 (amended): for a matrix with `rows > 0`, `cols > 0` whose `rows * cols` elements fit
the `int` range, the sequential pipeline writes to `outputs[0][0]` the maximum of the
flattened matrix: a value that occurs in it and is `≥` every element of it. -/
theorem sequential_output_is_maximum {T : Type} [LinearOrder T]
    (self : MaxValueOfMatrixElementsSequential T)
    (rows cols : Int) (m : List T) (o : T) (slots : List T) (outs : List (List T))
    (hin : self.taskData.inputs = [Buffer.ints [rows, cols], Buffer.elems m])
    (hout : self.taskData.outputs = (o :: slots) :: outs)
    (hrows : 0 < rows) (hcols : 0 < cols) (hlen : (m.length : Int) = rows * cols)
    (hfit : rows * cols ≤ INT_MAX) :
    ∃ v, MaxValueOfMatrixElementsSequential.output self = some v ∧ v ∈ m ∧ ∀ x ∈ m, x ≤ v :=
  sequential_output_correct self rows cols m o slots outs hin hout hrows hcols hlen hfit

/-- C2 (witness): the 2 × 3 matrix `[[1,7,3],[9,2,5]]`. -/
theorem sequential_output_is_maximum_witness :
    ∃ v, MaxValueOfMatrixElementsSequential.output
        (MaxValueOfMatrixElementsSequential.init scenario_2x3) = some v ∧
      v ∈ [1, 7, 3, 9, 2, 5] ∧ ∀ x ∈ [1, 7, 3, 9, 2, 5], x ≤ v :=
  sequential_output_is_maximum (MaxValueOfMatrixElementsSequential.init scenario_2x3)
    2 3 [1, 7, 3, 9, 2, 5] 0 [] [] rfl rfl (by decide) (by decide) (by decide) (by decide)

/-- C2 (counterexample): for a `65536 × 65536` matrix the 32-bit product `rows_ * cols_` is
`0`, the stored matrix is empty and the sequential pipeline produces no output. -/
theorem sequential_output_not_maximum :
    (0 : Int) < 65536 ∧ ((List.replicate 4294967296 (1 : Int)).length : Int) = 65536 * 65536 ∧
    MaxValueOfMatrixElementsSequential.output
      (MaxValueOfMatrixElementsSequential.init scenario_65536) = none :=
  ⟨by decide, scenario_65536_length, sequential_output_scenario_65536⟩

/-! ## C3 -/

/-- C3 (amended): for a matrix with `rows > 0`, `cols > 0` whose `rows * cols` elements fit
the `int` range, and `p = others.length + 1 ≥ 1` processes such that `p ≤ rows * cols` or
some element is `≥ 0`, the distributed task and the sequential task on the same task data
both produce an output, and the two outputs are equal. -/
theorem parallel_output_eq_sequential_output {T : Type} [LinearOrder T] [Zero T]
    (root : MaxValueOfMatrixElementsParallel T)
    (others : List (MaxValueOfMatrixElementsParallel T))
    (seq : MaxValueOfMatrixElementsSequential T)
    (rows cols : Int) (m : List T) (o : T) (slots : List T) (outs : List (List T))
    (hsame : seq.taskData = root.taskData)
    (hin : root.taskData.inputs = [Buffer.ints [rows, cols], Buffer.elems m])
    (hout : root.taskData.outputs = (o :: slots) :: outs)
    (hrows : 0 < rows) (hcols : 0 < cols) (hlen : (m.length : Int) = rows * cols)
    (hfit : rows * cols ≤ INT_MAX)
    (hcond : ((others.length + 1 : Nat) : Int) ≤ rows * cols ∨ ∃ x ∈ m, 0 ≤ x) :
    ∃ v, MaxValueOfMatrixElementsParallel.output (root :: others) = some v ∧
      MaxValueOfMatrixElementsSequential.output seq = some v := by
  obtain ⟨v, hpar, hv⟩ := parallel_output_correct root others rows cols m o slots outs hin hout
    hrows hcols hlen hfit hcond
  obtain ⟨w, hseq, hw⟩ := sequential_output_correct seq rows cols m o slots outs
    (by rw [hsame]; exact hin) (by rw [hsame]; exact hout) hrows hcols hlen hfit
  exact ⟨v, hpar, by rw [hseq, isMaxOf_unique hw hv]⟩

/-- C3 (witness): the 2 × 3 matrix `[[1,7,3],[9,2,5]]` on two processes. -/
theorem parallel_output_eq_sequential_output_witness :
    ∃ v, MaxValueOfMatrixElementsParallel.output
        [MaxValueOfMatrixElementsParallel.init scenario_2x3 INT_MIN,
         MaxValueOfMatrixElementsParallel.init no_task_data INT_MIN] = some v ∧
      MaxValueOfMatrixElementsSequential.output
        (MaxValueOfMatrixElementsSequential.init scenario_2x3) = some v :=
  parallel_output_eq_sequential_output (MaxValueOfMatrixElementsParallel.init scenario_2x3 INT_MIN)
    [MaxValueOfMatrixElementsParallel.init no_task_data INT_MIN]
    (MaxValueOfMatrixElementsSequential.init scenario_2x3) 2 3 [1, 7, 3, 9, 2, 5] 0 [] []
    rfl rfl rfl (by decide) (by decide) (by decide) (by decide) (Or.inl (by decide))

/-- C3 (counterexample): on the matrix `[[-5]]` with two processes the distributed task
outputs `0` and the sequential task `-5`; on a `65536 × 65536` matrix the distributed task
outputs `0` and the sequential task produces no output. -/
theorem parallel_output_ne_sequential_output :
    (MaxValueOfMatrixElementsParallel.output
        [MaxValueOfMatrixElementsParallel.init scenario_negative INT_MIN,
         MaxValueOfMatrixElementsParallel.init no_task_data INT_MIN] = some 0 ∧
      MaxValueOfMatrixElementsSequential.output
        (MaxValueOfMatrixElementsSequential.init scenario_negative) = some (-5)) ∧
    (MaxValueOfMatrixElementsParallel.output
        [MaxValueOfMatrixElementsParallel.init scenario_65536 INT_MIN] = some 0 ∧
      MaxValueOfMatrixElementsSequential.output
        (MaxValueOfMatrixElementsSequential.init scenario_65536) = none) :=
  ⟨⟨by decide, by decide⟩, parallel_output_scenario_65536, sequential_output_scenario_65536⟩

theorem distr_getElem? (n size : Int) (hn : 0 ≤ n) (hs : 1 ≤ size) (i : Nat)
    (hi : (i : Int) < size) :
    (distr n size)[i]? = some (n / size + if (i : Int) < n % size then 1 else 0) := by
  have hr : n % size < size := Int.emod_lt_of_pos n (by omega)
  have hr0 : 0 ≤ n % size := Int.emod_nonneg n (by omega)
  rw [distr_eq n size hn hs, List.getElem?_append, List.getElem?_replicate,
    List.getElem?_replicate]
  simp only [List.length_replicate]
  by_cases h1 : (i : Int) < n % size
  · have h2 : i < (n % size).toNat := by omega
    simp [h1, h2]
  · have h2 : ¬ i < (n % size).toNat := by omega
    have h3 : i - (n % size).toNat < size.toNat - (n % size).toNat := by omega
    simp [h1, h2, h3]

theorem ceil_div_of_pos_emod (n : Int) (p : Nat) (hp : 1 ≤ p) (hr : 0 < n % (p : Int)) :
    ⌈(n : ℚ) / (p : ℚ)⌉ = n / (p : Int) + 1 := by
  have hp0 : (0 : ℚ) < (p : ℚ) := by exact_mod_cast hp
  have hlt : n % (p : Int) < (p : Int) := Int.emod_lt_of_pos n (by omega)
  have hdecomp := Int.emod_add_ediv n (p : Int)
  rw [Int.ceil_eq_iff]
  constructor
  · rw [lt_div_iff₀ hp0]
    have h : (n / (p : Int)) * (p : Int) < n := by nlinarith
    push_cast
    have h' : ((n / (p : Int) : Int) : ℚ) * (p : ℚ) < (n : ℚ) := by exact_mod_cast h
    linarith
  · rw [div_le_iff₀ hp0]
    have h : n ≤ (n / (p : Int) + 1) * (p : Int) := by nlinarith
    exact_mod_cast h

/-! ## C4 -/

/-- C4: for every total count `n ≥ 0` and worker count `p ≥ 1` the counts `distr` computed
in `run` have length `p`; `distr[i] = n / p + (1 if i < n % p else 0)` for every `i < p`;
every `distr[i]` is `⌊n / p⌋` or `⌈n / p⌉`; and `distr[i]` carries the extra element
exactly when `i < n % p`. -/
theorem distr_counts (n : Int) (p : Nat) (hn : 0 ≤ n) (hp : 1 ≤ p) :
    (distr n p).length = p ∧
    (∀ i : Nat, i < p →
      (distr n p)[i]? = some (n / p + if (i : Int) < n % p then 1 else 0)) ∧
    (∀ i : Nat, i < p → (distr n p)[i]? = some ⌊(n : ℚ) / (p : ℚ)⌋ ∨
      (distr n p)[i]? = some ⌈(n : ℚ) / (p : ℚ)⌉) ∧
    (∀ i : Nat, i < p → ((distr n p)[i]? = some (n / p + 1) ↔ (i : Int) < n % p)) := by
  have hs : (1 : Int) ≤ (p : Int) := by exact_mod_cast hp
  have hget : ∀ i, i < p →
      (distr n p)[i]? = some (n / p + if (i : Int) < n % p then 1 else 0) :=
    fun i hi => distr_getElem? n p hn hs i (by exact_mod_cast hi)
  refine ⟨by simp [distr_length], hget, ?_, ?_⟩
  · intro i hi
    rw [hget i hi, Rat.floor_intCast_div_natCast]
    by_cases h : (i : Int) < n % p
    · right
      have hr0 : 0 ≤ (i : Int) := Int.natCast_nonneg i
      rw [ceil_div_of_pos_emod n p hp (by omega)]
      simp [h]
    · left
      simp [h]
  · intro i hi
    rw [hget i hi]
    by_cases h : (i : Int) < n % p
    · simp [h]
    · simp [h]

/-- C4 (witness): seven elements on three processes. -/
theorem distr_counts_witness :
    (distr 7 ((3 : Nat) : Int)).length = 3 ∧
    (∀ i : Nat, i < 3 → (distr 7 ((3 : Nat) : Int))[i]? =
      some (7 / ((3 : Nat) : Int) + if (i : Int) < 7 % ((3 : Nat) : Int) then 1 else 0)) ∧
    (∀ i : Nat, i < 3 →
      (distr 7 ((3 : Nat) : Int))[i]? = some ⌊((7 : Int) : ℚ) / ((3 : Nat) : ℚ)⌋ ∨
      (distr 7 ((3 : Nat) : Int))[i]? = some ⌈((7 : Int) : ℚ) / ((3 : Nat) : ℚ)⌉) ∧
    (∀ i : Nat, i < 3 → ((distr 7 ((3 : Nat) : Int))[i]? = some (7 / ((3 : Nat) : Int) + 1) ↔
      (i : Int) < 7 % ((3 : Nat) : Int))) :=
  distr_counts 7 3 (by decide) (by decide)

/-! ## C5 -/

/-- C5: for every `n ≥ 0` and `p ≥ 1` the counts `distr` computed in `run` sum to `n`. -/
theorem distr_sum_eq_total (n : Int) (p : Nat) (hn : 0 ≤ n) (hp : 1 ≤ p) :
    (distr n p).sum = n :=
  distr_sum n p hn (by exact_mod_cast hp)

/-- C5 (witness): the counts for seven elements on three processes sum to seven. -/
theorem distr_sum_eq_total_witness : (distr 7 ((3 : Nat) : Int)).sum = 7 :=
  distr_sum_eq_total 7 3 (by decide) (by decide)

/-! ## C6 -/

/-- C6: for every `n ≥ 0` and `p ≥ 1` the offsets `displ` computed in `run` have length
`p`, `displ[0] = 0`, `displ[i] = displ[i - 1] + distr[i - 1]` for every `1 ≤ i < p`, and
`displ[i]` is the sum of `distr[0], ..., distr[i - 1]`. -/
theorem displ_offsets (n : Int) (p : Nat) (hn : 0 ≤ n) (hp : 1 ≤ p) :
    (displ n p).length = p ∧
    (displ n p)[0]? = some 0 ∧
    (∀ i : Nat, 1 ≤ i → i < p →
      ∃ a b : Int, (displ n p)[i - 1]? = some a ∧ (distr n p)[i - 1]? = some b ∧
        (displ n p)[i]? = some (a + b)) ∧
    (∀ i : Nat, i < p → (displ n p)[i]? = some (((distr n p).take i).sum)) := by
  have hs : (1 : Int) ≤ (p : Int) := by exact_mod_cast hp
  have hget : ∀ i, i < p → (displ n p)[i]? = some (((distr n p).take i).sum) := by
    intro i hi
    rw [displ_getElem?]
    simp [hi]
  refine ⟨by simp [displ_length], ?_, ?_, hget⟩
  · rw [hget 0 (by omega)]
    simp
  · intro i h1 hi
    obtain ⟨j, rfl⟩ : ∃ j, i = j + 1 := ⟨i - 1, by omega⟩
    have hj : j < p := by omega
    have hd := distr_getElem? n p hn hs j (by exact_mod_cast hj)
    refine ⟨((distr n p).take j).sum, _, ?_, hd, ?_⟩
    · simpa using hget j hj
    · rw [hget (j + 1) hi, sum_take_succ_getD, List.getD_eq_getElem?_getD, hd]
      simp

/-- C6 (witness): seven elements on three processes. -/
theorem displ_offsets_witness :
    (displ 7 ((3 : Nat) : Int)).length = 3 ∧
    (displ 7 ((3 : Nat) : Int))[0]? = some 0 ∧
    (∀ i : Nat, 1 ≤ i → i < 3 →
      ∃ a b : Int, (displ 7 ((3 : Nat) : Int))[i - 1]? = some a ∧
        (distr 7 ((3 : Nat) : Int))[i - 1]? = some b ∧
        (displ 7 ((3 : Nat) : Int))[i]? = some (a + b)) ∧
    (∀ i : Nat, i < 3 →
      (displ 7 ((3 : Nat) : Int))[i]? = some (((distr 7 ((3 : Nat) : Int)).take i).sum)) :=
  displ_offsets 7 3 (by decide) (by decide)

/-! ## C7 -/

/-- C7: for every non-empty sequence the distributed task's `get_max_matrix_element`
returns a member of the sequence that is `≥` every element of the sequence. -/
theorem parallel_get_max_matrix_element_is_maximum {T : Type} [LinearOrder T] [Zero T]
    (matrix : List T) (hne : matrix ≠ []) :
    MaxValueOfMatrixElementsParallel.get_max_matrix_element matrix ∈ matrix ∧
    ∀ x ∈ matrix, x ≤ MaxValueOfMatrixElementsParallel.get_max_matrix_element matrix :=
  parallel_get_max_isMaxOf matrix hne

/-- C7 (witness): the maximum of `[1, 7, 3, 9, 2, 5]`. -/
theorem parallel_get_max_matrix_element_is_maximum_witness :
    MaxValueOfMatrixElementsParallel.get_max_matrix_element ([1, 7, 3, 9, 2, 5] : List Int) ∈
      ([1, 7, 3, 9, 2, 5] : List Int) ∧
    ∀ x ∈ ([1, 7, 3, 9, 2, 5] : List Int),
      x ≤ MaxValueOfMatrixElementsParallel.get_max_matrix_element [1, 7, 3, 9, 2, 5] :=
  parallel_get_max_matrix_element_is_maximum [1, 7, 3, 9, 2, 5] (by decide)

section PreProcessing

variable {T : Type}

theorem parallel_pre_processing_eq (self : MaxValueOfMatrixElementsParallel T)
    (rows cols : Int) (buf : List T) (bufs : List (Buffer T))
    (hin : self.taskData.inputs = Buffer.ints [rows, cols] :: Buffer.elems buf :: bufs) :
    MaxValueOfMatrixElementsParallel.pre_processing 0 self =
      if rows ≤ 0 ∨ cols ≤ 0 then some (false, { self with rows_ := rows, cols_ := cols })
      else if 0 ≤ mulInt rows cols ∧ mulInt rows cols ≤ buf.length then
        some (true, { self with rows_ := rows, cols_ := cols,
                                matrix := buf.take (mulInt rows cols).toNat })
      else none := by
  obtain ⟨hr, hc⟩ := read_shape self.taskData rows cols _ hin
  unfold MaxValueOfMatrixElementsParallel.pre_processing
  simp only [hr, hc, if_true]
  by_cases h : rows ≤ 0 ∨ cols ≤ 0
  · simp only [h, if_true]
  · simp only [h, if_false]
    unfold TaskData.read_elems
    rw [hin]
    simp only [List.getElem?_cons_succ, List.getElem?_cons_zero]
    by_cases hb : 0 ≤ mulInt rows cols ∧ mulInt rows cols ≤ buf.length
    · simp only [hb, and_self, if_true]
    · simp only [hb, if_false]

theorem sequential_pre_processing_eq (self : MaxValueOfMatrixElementsSequential T)
    (rows cols : Int) (buf : List T) (bufs : List (Buffer T))
    (hin : self.taskData.inputs = Buffer.ints [rows, cols] :: Buffer.elems buf :: bufs) :
    MaxValueOfMatrixElementsSequential.pre_processing self =
      if rows ≤ 0 ∨ cols ≤ 0 then some (false, { self with rows_ := rows, cols_ := cols })
      else if 0 ≤ mulInt rows cols ∧ mulInt rows cols ≤ buf.length then
        some (true, { self with rows_ := rows, cols_ := cols,
                                matrix := buf.take (mulInt rows cols).toNat })
      else none := by
  obtain ⟨hr, hc⟩ := read_shape self.taskData rows cols _ hin
  unfold MaxValueOfMatrixElementsSequential.pre_processing
  simp only [hr, hc]
  by_cases h : rows ≤ 0 ∨ cols ≤ 0
  · simp only [h, if_true]
  · simp only [h, if_false]
    unfold TaskData.read_elems
    rw [hin]
    simp only [List.getElem?_cons_succ, List.getElem?_cons_zero]
    by_cases hb : 0 ≤ mulInt rows cols ∧ mulInt rows cols ≤ buf.length
    · simp only [hb, and_self, if_true]
    · simp only [hb, if_false]

end PreProcessing

/-! ## C8 -/

/-- C8: at the coordinator (rank 0) the distributed task's `validation` returns `false` if
and only if no input buffer was supplied, or no output buffer was supplied, or the declared
`rows ≤ 0`, or the declared `cols ≤ 0`; in every other case it returns `true`. The shape
`[rows, cols]` is the content of input buffer 0 when one is supplied. -/
theorem parallel_validation_false_iff {T : Type} (self : MaxValueOfMatrixElementsParallel T)
    (rows cols : Int)
    (hshape : self.taskData.inputs = [] ∨
      ∃ bufs, self.taskData.inputs = Buffer.ints [rows, cols] :: bufs) :
    ∃ b, MaxValueOfMatrixElementsParallel.validation 0 self = some (b, self) ∧
      (b = false ↔
        (self.taskData.inputs = [] ∨ self.taskData.outputs = [] ∨ rows ≤ 0 ∨ cols ≤ 0)) ∧
      (b = true ↔
        ¬ (self.taskData.inputs = [] ∨ self.taskData.outputs = [] ∨ rows ≤ 0 ∨ cols ≤ 0)) := by
  unfold MaxValueOfMatrixElementsParallel.validation
  rcases hshape with hnil | ⟨bufs, hin⟩
  · exact ⟨false, by simp [hnil], by simp [hnil], by simp [hnil]⟩
  · obtain ⟨hr, hc⟩ := read_shape self.taskData rows cols bufs hin
    by_cases hout : self.taskData.outputs = []
    · exact ⟨false, by simp [hout], by simp [hout], by simp [hout]⟩
    · have hout' : self.taskData.outputs.isEmpty = false := by
        cases h : self.taskData.outputs with
        | nil => exact absurd h hout
        | cons x xs => rfl
      by_cases h0 : rows ≤ 0
      · exact ⟨false, by simp [hin, hout', hr, h0], by simp [h0], by simp [h0]⟩
      · by_cases h1 : cols ≤ 0
        · exact ⟨false, by simp [hin, hout', hr, hc, h0, h1], by simp [h1], by simp [h1]⟩
        · exact ⟨true, by simp [hin, hout', hr, hc, h0, h1],
            by simp [hin, hout, h0, h1], by simp [hin, hout, h0, h1]⟩

/-- C8 (witness): validation of the 2 × 3 scenario. -/
theorem parallel_validation_false_iff_witness :
    ∃ b, MaxValueOfMatrixElementsParallel.validation 0
        (MaxValueOfMatrixElementsParallel.init scenario_2x3 INT_MIN) =
        some (b, MaxValueOfMatrixElementsParallel.init scenario_2x3 INT_MIN) ∧
      (b = false ↔
        ((MaxValueOfMatrixElementsParallel.init scenario_2x3 INT_MIN).taskData.inputs = [] ∨
          (MaxValueOfMatrixElementsParallel.init scenario_2x3 INT_MIN).taskData.outputs = [] ∨
          (2 : Int) ≤ 0 ∨ (3 : Int) ≤ 0)) ∧
      (b = true ↔
        ¬ ((MaxValueOfMatrixElementsParallel.init scenario_2x3 INT_MIN).taskData.inputs = [] ∨
          (MaxValueOfMatrixElementsParallel.init scenario_2x3 INT_MIN).taskData.outputs = [] ∨
          (2 : Int) ≤ 0 ∨ (3 : Int) ≤ 0)) :=
  parallel_validation_false_iff (MaxValueOfMatrixElementsParallel.init scenario_2x3 INT_MIN) 2 3
    (Or.inr ⟨_, rfl⟩)

section Frame

variable {T : Type}

theorem parallel_validation_frame (rank : Int) (t s : MaxValueOfMatrixElementsParallel T)
    (b : Bool) (h : MaxValueOfMatrixElementsParallel.validation rank t = some (b, s)) :
    s = t := by
  unfold MaxValueOfMatrixElementsParallel.validation at h
  repeat' split at h
  all_goals simp at h
  all_goals exact h.2.symm

theorem parallel_pre_processing_frame (rank : Int) (t s : MaxValueOfMatrixElementsParallel T)
    (b : Bool) (h : MaxValueOfMatrixElementsParallel.pre_processing rank t = some (b, s)) :
    s.taskData = t.taskData := by
  unfold MaxValueOfMatrixElementsParallel.pre_processing at h
  repeat' split at h
  all_goals simp at h
  all_goals rw [← h.2]

theorem sequential_validation_frame (t s : MaxValueOfMatrixElementsSequential T)
    (b : Bool) (h : MaxValueOfMatrixElementsSequential.validation t = some (b, s)) :
    s = t := by
  unfold MaxValueOfMatrixElementsSequential.validation at h
  simp at h
  exact h.2.symm

theorem sequential_pre_processing_frame (t s : MaxValueOfMatrixElementsSequential T)
    (b : Bool) (h : MaxValueOfMatrixElementsSequential.pre_processing t = some (b, s)) :
    s.taskData = t.taskData := by
  unfold MaxValueOfMatrixElementsSequential.pre_processing at h
  repeat' split at h
  all_goals simp at h
  all_goals rw [← h.2]

end Frame

/-! ## C9 -/

/-- C9 (amended): in both tasks `pre_processing` (at the coordinator for the distributed
task) returns `false` if and only if `rows ≤ 0` or `cols ≤ 0`; when it returns `true` the
stored matrix is exactly the first `n` elements of input buffer 1, in order, where `n` is
the 32-bit `int` product `rows_ * cols_`; and whenever `rows * cols ≤ INT_MAX` elements are
supplied, `n = rows * cols` and `pre_processing` does return `true`. -/
theorem pre_processing_stores_matrix {T : Type}
    (par : MaxValueOfMatrixElementsParallel T) (seq : MaxValueOfMatrixElementsSequential T)
    (rows cols : Int) (buf : List T)
    (hpar : par.taskData.inputs = [Buffer.ints [rows, cols], Buffer.elems buf])
    (hseq : seq.taskData.inputs = [Buffer.ints [rows, cols], Buffer.elems buf]) :
    ((∃ s, MaxValueOfMatrixElementsParallel.pre_processing 0 par = some (false, s)) ↔
      (rows ≤ 0 ∨ cols ≤ 0)) ∧
    ((∃ s, MaxValueOfMatrixElementsSequential.pre_processing seq = some (false, s)) ↔
      (rows ≤ 0 ∨ cols ≤ 0)) ∧
    (∀ s, MaxValueOfMatrixElementsParallel.pre_processing 0 par = some (true, s) →
      s.matrix = buf.take (mulInt rows cols).toNat) ∧
    (∀ s, MaxValueOfMatrixElementsSequential.pre_processing seq = some (true, s) →
      s.matrix = buf.take (mulInt rows cols).toNat) ∧
    (0 < rows → 0 < cols → rows * cols ≤ INT_MAX → rows * cols ≤ buf.length →
      mulInt rows cols = rows * cols ∧
      (∃ s, MaxValueOfMatrixElementsParallel.pre_processing 0 par = some (true, s) ∧
        s.matrix = buf.take (rows * cols).toNat) ∧
      (∃ s, MaxValueOfMatrixElementsSequential.pre_processing seq = some (true, s) ∧
        s.matrix = buf.take (rows * cols).toNat)) := by
  have hp := parallel_pre_processing_eq par rows cols buf [] hpar
  have hs := sequential_pre_processing_eq seq rows cols buf [] hseq
  refine ⟨?_, ?_, ?_, ?_, ?_⟩
  · rw [hp]
    by_cases h : rows ≤ 0 ∨ cols ≤ 0
    · simp [h]
    · by_cases hb : 0 ≤ mulInt rows cols ∧ mulInt rows cols ≤ buf.length
      · simp [h, hb]
      · simp [h, hb]
  · rw [hs]
    by_cases h : rows ≤ 0 ∨ cols ≤ 0
    · simp [h]
    · by_cases hb : 0 ≤ mulInt rows cols ∧ mulInt rows cols ≤ buf.length
      · simp [h, hb]
      · simp [h, hb]
  · intro s h
    rw [hp] at h
    by_cases h0 : rows ≤ 0 ∨ cols ≤ 0
    · simp [h0] at h
    · by_cases hb : 0 ≤ mulInt rows cols ∧ mulInt rows cols ≤ buf.length
      · simp only [h0, hb, and_self, if_true, if_false, Option.some.injEq, Prod.mk.injEq,
          true_and] at h
        rw [← h]
      · simp [h0, hb] at h
  · intro s h
    rw [hs] at h
    by_cases h0 : rows ≤ 0 ∨ cols ≤ 0
    · simp [h0] at h
    · by_cases hb : 0 ≤ mulInt rows cols ∧ mulInt rows cols ≤ buf.length
      · simp only [h0, hb, and_self, if_true, if_false, Option.some.injEq, Prod.mk.injEq,
          true_and] at h
        rw [← h]
      · simp [h0, hb] at h
  · intro hrows hcols hfit hlen
    have hpos : 0 < rows * cols := Int.mul_pos hrows hcols
    have hmul : mulInt rows cols = rows * cols :=
      mulInt_eq_mul rows cols (le_of_lt hpos) hfit
    have h0 : ¬ (rows ≤ 0 ∨ cols ≤ 0) := by omega
    have hb : 0 ≤ mulInt rows cols ∧ mulInt rows cols ≤ buf.length := by
      rw [hmul]; exact ⟨le_of_lt hpos, hlen⟩
    refine ⟨hmul,
      ⟨{ par with rows_ := rows, cols_ := cols,
                  matrix := buf.take (mulInt rows cols).toNat }, ?_, ?_⟩,
      ⟨{ seq with rows_ := rows, cols_ := cols,
                  matrix := buf.take (mulInt rows cols).toNat }, ?_, ?_⟩⟩
    · rw [hp, if_neg h0, if_pos hb]
    · rw [hmul]
    · rw [hs, if_neg h0, if_pos hb]
    · rw [hmul]

/-- C9 (witness): the 2 × 3 scenario. -/
theorem pre_processing_stores_matrix_witness :
    ∃ s, MaxValueOfMatrixElementsSequential.pre_processing
        (MaxValueOfMatrixElementsSequential.init scenario_2x3) = some (true, s) ∧
      s.matrix = ([1, 7, 3, 9, 2, 5] : List Int).take ((2 : Int) * 3).toNat :=
  ((pre_processing_stores_matrix (MaxValueOfMatrixElementsParallel.init scenario_2x3 INT_MIN)
    (MaxValueOfMatrixElementsSequential.init scenario_2x3) 2 3 [1, 7, 3, 9, 2, 5] rfl rfl).2.2.2.2
      (by decide) (by decide) (by decide) (by decide)).2.2

/-- C9 (counterexample): for `rows = cols = 65536` and a buffer of `65536 * 65536` elements,
`pre_processing` of either task returns `true` with an empty stored matrix, which is not the
first `rows * cols = 4294967296` elements of the buffer. -/
theorem pre_processing_not_first_elements :
    (65536 : Int) * 65536 = 4294967296 ∧
    (List.replicate 4294967296 (1 : Int)).take 4294967296 ≠ [] ∧
    (∃ s, MaxValueOfMatrixElementsSequential.pre_processing
        (MaxValueOfMatrixElementsSequential.init scenario_65536) = some (true, s) ∧
      s.matrix = []) ∧
    (∃ s, MaxValueOfMatrixElementsParallel.pre_processing 0
        (MaxValueOfMatrixElementsParallel.init scenario_65536 INT_MIN) = some (true, s) ∧
      s.matrix = []) := by
  have hb : 0 ≤ mulInt 65536 65536 ∧
      mulInt 65536 65536 ≤ ((List.replicate 4294967296 (1 : Int)).length : Int) := by
    rw [mulInt_65536]
    exact ⟨le_refl 0, Int.natCast_nonneg _⟩
  have h0 : ¬ ((65536 : Int) ≤ 0 ∨ (65536 : Int) ≤ 0) := by decide
  refine ⟨by decide, ?_,
    ⟨{ MaxValueOfMatrixElementsSequential.init scenario_65536 with
        rows_ := 65536, cols_ := 65536,
        matrix := (List.replicate 4294967296 (1 : Int)).take (mulInt 65536 65536).toNat },
      ?_, ?_⟩,
    ⟨{ MaxValueOfMatrixElementsParallel.init scenario_65536 INT_MIN with
        rows_ := 65536, cols_ := 65536,
        matrix := (List.replicate 4294967296 (1 : Int)).take (mulInt 65536 65536).toNat },
      ?_, ?_⟩⟩
  · intro h
    have := congrArg List.length h
    rw [List.length_take, List.length_replicate] at this
    exact absurd this (by decide)
  · rw [sequential_pre_processing_eq (MaxValueOfMatrixElementsSequential.init scenario_65536)
      65536 65536 (List.replicate 4294967296 1) [] rfl, if_neg h0, if_pos hb]
  · show List.take (mulInt 65536 65536).toNat (List.replicate 4294967296 (1 : Int)) = []
    rw [mulInt_65536]
    rfl
  · rw [parallel_pre_processing_eq (MaxValueOfMatrixElementsParallel.init scenario_65536 INT_MIN)
      65536 65536 (List.replicate 4294967296 1) [] rfl, if_neg h0, if_pos hb]
  · show List.take (mulInt 65536 65536).toNat (List.replicate 4294967296 (1 : Int)) = []
    rw [mulInt_65536]
    rfl

/-! ## C10 -/

/-- C10: for every input with `rows = 0` or `cols = 0` and buffers supplied, the distributed
task's `validation` and `pre_processing` at the coordinator and the sequential task's
`pre_processing` return `false`, both pipelines halt with failure, and the output buffers
are exactly as they were; in general neither `validation` nor `pre_processing` of either
task changes the task data. -/
theorem zero_dimension_fails_without_output {T : Type} [LinearOrder T] [Zero T]
    (root : MaxValueOfMatrixElementsParallel T)
    (others : List (MaxValueOfMatrixElementsParallel T))
    (seq : MaxValueOfMatrixElementsSequential T)
    (rows cols : Int) (bufs : List (Buffer T)) (out : List T) (outs : List (List T))
    (hin : root.taskData.inputs = Buffer.ints [rows, cols] :: bufs)
    (hout : root.taskData.outputs = out :: outs)
    (hsame : seq.taskData = root.taskData)
    (hzero : rows = 0 ∨ cols = 0) :
    MaxValueOfMatrixElementsParallel.validation 0 root = some (false, root) ∧
    (∃ s, MaxValueOfMatrixElementsParallel.pre_processing 0 root = some (false, s) ∧
      s.taskData = root.taskData) ∧
    (∃ w, MaxValueOfMatrixElementsParallel.pipeline (root :: others) = some (false, w) ∧
      w.map (fun t => t.taskData) = (root :: others).map (fun t => t.taskData)) ∧
    (∃ s, MaxValueOfMatrixElementsSequential.pre_processing seq = some (false, s) ∧
      s.taskData = seq.taskData) ∧
    (∃ s, MaxValueOfMatrixElementsSequential.pipeline seq = some (false, s) ∧
      s.taskData = seq.taskData) ∧
    (∀ (rank : Int) (t s : MaxValueOfMatrixElementsParallel T) (b : Bool),
      (MaxValueOfMatrixElementsParallel.validation rank t = some (b, s) ∨
        MaxValueOfMatrixElementsParallel.pre_processing rank t = some (b, s)) →
      s.taskData = t.taskData) ∧
    (∀ (t s : MaxValueOfMatrixElementsSequential T) (b : Bool),
      (MaxValueOfMatrixElementsSequential.validation t = some (b, s) ∨
        MaxValueOfMatrixElementsSequential.pre_processing t = some (b, s)) →
      s.taskData = t.taskData) := by
  obtain ⟨hr, hc⟩ := read_shape root.taskData rows cols bufs hin
  have hle : rows ≤ 0 ∨ cols ≤ 0 := by omega
  have hval : MaxValueOfMatrixElementsParallel.validation 0 root = some (false, root) := by
    unfold MaxValueOfMatrixElementsParallel.validation
    by_cases h0 : rows ≤ 0
    · simp [hin, hout, hr, h0]
    · have h1 : cols ≤ 0 := by omega
      simp [hin, hout, hr, hc, h0, h1]
  have hpre : MaxValueOfMatrixElementsParallel.pre_processing 0 root =
      some (false, { root with rows_ := rows, cols_ := cols }) := by
    unfold MaxValueOfMatrixElementsParallel.pre_processing
    simp [hr, hc, hle]
  have hspre : MaxValueOfMatrixElementsSequential.pre_processing seq =
      some (false, { seq with rows_ := rows, cols_ := cols }) := by
    unfold MaxValueOfMatrixElementsSequential.pre_processing
    simp [hsame, hr, hc, hle]
  refine ⟨hval, ⟨_, hpre, rfl⟩, ⟨_, pipeline_validation_false root root others hval, rfl⟩,
    ⟨_, hspre, rfl⟩, ⟨{ seq with rows_ := rows, cols_ := cols }, ?_, rfl⟩, ?_, ?_⟩
  · have hv : (!seq.taskData.inputs.isEmpty && !seq.taskData.outputs.isEmpty) = true := by
      simp [hsame, hin, hout]
    unfold MaxValueOfMatrixElementsSequential.pipeline
      MaxValueOfMatrixElementsSequential.validation
    simp only [hv, hspre]
  · intro rank t s b h
    rcases h with h | h
    · rw [parallel_validation_frame rank t s b h]
    · exact parallel_pre_processing_frame rank t s b h
  · intro t s b h
    rcases h with h | h
    · rw [sequential_validation_frame t s b h]
    · exact sequential_pre_processing_frame t s b h

/-- C10 (witness): a `0 × 3` shape with buffers supplied; both pipelines halt with failure
and the output slot keeps its value. -/
theorem zero_dimension_fails_without_output_witness :
    (∃ w, MaxValueOfMatrixElementsParallel.pipeline
        [MaxValueOfMatrixElementsParallel.init scenario_zero_rows INT_MIN,
         MaxValueOfMatrixElementsParallel.init no_task_data INT_MIN] = some (false, w) ∧
      w.map (fun t => t.taskData) =
        [MaxValueOfMatrixElementsParallel.init scenario_zero_rows INT_MIN,
         MaxValueOfMatrixElementsParallel.init no_task_data INT_MIN].map (fun t => t.taskData)) ∧
    (∃ s, MaxValueOfMatrixElementsSequential.pipeline
        (MaxValueOfMatrixElementsSequential.init scenario_zero_rows) = some (false, s) ∧
      s.taskData = (MaxValueOfMatrixElementsSequential.init scenario_zero_rows).taskData) :=
  have h := zero_dimension_fails_without_output
    (MaxValueOfMatrixElementsParallel.init scenario_zero_rows INT_MIN)
    [MaxValueOfMatrixElementsParallel.init no_task_data INT_MIN]
    (MaxValueOfMatrixElementsSequential.init scenario_zero_rows) 0 3 [Buffer.elems []] [7] []
    rfl rfl rfl (Or.inl rfl)
  ⟨h.2.2.1, h.2.2.2.2.1⟩

section RunShape

variable {T : Type}

theorem scatterv_length (m : List T) (cnts offs : List Int) (ls : List (List T))
    (h : scatterv m cnts offs = some ls) : ls.length = min cnts.length offs.length := by
  unfold scatterv at h
  split at h
  · simp only [Option.some.injEq] at h
    rw [← h, List.length_map, List.length_zip]
  · exact absurd h (by simp)

theorem scatterv_distr_length (m : List T) (n size : Int) (ls : List (List T))
    (h : scatterv m (distr n size) (displ n size) = some ls) : ls.length = size.toNat := by
  rw [scatterv_length m _ _ ls h, distr_length, displ_length, Nat.min_self]

theorem enumFrom_map_others (g : T) (rows cols : Int) (k : Nat) (hk : 1 ≤ k)
    (l : List (MaxValueOfMatrixElementsParallel T × T)) :
    (l.enumFrom k).map (fun e =>
        ((true, { e.2.1 with
                    rows_ := rows, cols_ := cols, local_max_ := e.2.2,
                    global_max_ := if e.1 = 0 then g else e.2.1.global_max_ }) :
          Bool × MaxValueOfMatrixElementsParallel T)) =
      l.map (fun e => (true, { e.1 with rows_ := rows, cols_ := cols, local_max_ := e.2 })) := by
  induction l generalizing k with
  | nil => rfl
  | cons x xs ih =>
    have hk0 : k ≠ 0 := by omega
    simp only [List.enumFrom_cons, List.map_cons, hk0, if_false, ih (k + 1) (by omega)]

end RunShape

section RunEq

variable {T : Type} [LinearOrder T] [Zero T]

theorem run_eq (root : MaxValueOfMatrixElementsParallel T)
    (others : List (MaxValueOfMatrixElementsParallel T)) (l : List T) (ls : List (List T))
    (g : T)
    (hs : scatterv root.matrix
        (distr (mulInt root.rows_ root.cols_) ((others.length + 1 : Nat) : Int))
        (displ (mulInt root.rows_ root.cols_) ((others.length + 1 : Nat) : Int)) =
          some (l :: ls))
    (hg : reduce maximum
        ((l :: ls).map MaxValueOfMatrixElementsParallel.get_max_matrix_element) = some g) :
    MaxValueOfMatrixElementsParallel.run (root :: others) =
      some ((true, { root with
                local_max_ := MaxValueOfMatrixElementsParallel.get_max_matrix_element l,
                global_max_ := g }) ::
        (others.zip (ls.map MaxValueOfMatrixElementsParallel.get_max_matrix_element)).map
          (fun e => (true, { e.1 with rows_ := root.rows_, cols_ := root.cols_,
                                      local_max_ := e.2 }))) := by
  have hg' : g = List.foldl maximum
      (MaxValueOfMatrixElementsParallel.get_max_matrix_element l)
      (List.map MaxValueOfMatrixElementsParallel.get_max_matrix_element ls) := by
    simpa [reduce] using hg.symm
  unfold MaxValueOfMatrixElementsParallel.run
  simp only [List.length_cons, hs, hg, List.map_cons, List.zip_cons_cons, List.enum_cons,
    if_true, enumFrom_map_others _ _ _ 1 (le_refl 1)]
  rw [hg']
  rfl

/-- Every process returns `true` from `run` and keeps its task data. -/
theorem run_frame (world : List (MaxValueOfMatrixElementsParallel T))
    (ran : List (Bool × MaxValueOfMatrixElementsParallel T))
    (h : MaxValueOfMatrixElementsParallel.run world = some ran) :
    ran.map (fun r => r.2.taskData) = world.map (fun t => t.taskData) ∧
      ∀ r ∈ ran, r.1 = true := by
  cases world with
  | nil => simp [MaxValueOfMatrixElementsParallel.run] at h
  | cons root others =>
    cases hsc : scatterv root.matrix
        (distr (mulInt root.rows_ root.cols_) ((others.length + 1 : Nat) : Int))
        (displ (mulInt root.rows_ root.cols_) ((others.length + 1 : Nat) : Int)) with
    | none =>
      unfold MaxValueOfMatrixElementsParallel.run at h
      simp only [List.length_cons, hsc] at h
      exact absurd h (by simp)
    | some lss =>
      have hlen := scatterv_distr_length _ _ _ _ hsc
      cases lss with
      | nil => simp at hlen
      | cons l ls =>
        have hg : reduce maximum
            ((l :: ls).map MaxValueOfMatrixElementsParallel.get_max_matrix_element) =
            some (List.foldl maximum
              (MaxValueOfMatrixElementsParallel.get_max_matrix_element l)
              (List.map MaxValueOfMatrixElementsParallel.get_max_matrix_element ls)) := rfl
        rw [run_eq root others l ls _ hsc hg] at h
        simp only [Option.some.injEq] at h
        have hls : others.length ≤
            (ls.map MaxValueOfMatrixElementsParallel.get_max_matrix_element).length := by
          simp only [List.length_cons] at hlen
          rw [List.length_map]
          omega
        rw [← h]
        constructor
        · simp only [List.map_cons, List.map_map]
          congr 1
          have := List.map_fst_zip others _ hls
          calc List.map ((fun r : Bool × MaxValueOfMatrixElementsParallel T => r.2.taskData) ∘
                  fun e : MaxValueOfMatrixElementsParallel T × T =>
                    ((true, { e.1 with rows_ := root.rows_, cols_ := root.cols_,
                                       local_max_ := e.2 }) :
                      Bool × MaxValueOfMatrixElementsParallel T))
                (others.zip (ls.map MaxValueOfMatrixElementsParallel.get_max_matrix_element))
              = List.map (fun t => t.taskData) (List.map Prod.fst
                  (others.zip
                    (ls.map MaxValueOfMatrixElementsParallel.get_max_matrix_element))) := by
                rw [List.map_map]; rfl
            _ = List.map (fun t => t.taskData) others := by rw [this]
        · intro r hr
          simp only [List.mem_cons, List.mem_map] at hr
          rcases hr with rfl | ⟨e, _, rfl⟩ <;> rfl

end RunEq

section PipelineState

variable {T : Type} [LinearOrder T] [Zero T]

/-- The distributed pipeline on a well-formed task, with the state it leaves: the
coordinator's task data carries the reduced maximum `g` in `outputs[0][0]`, every other
process keeps its task data, and `g` is fixed by the input buffers and the group size. -/
theorem parallel_pipeline_eq (root : MaxValueOfMatrixElementsParallel T)
    (others : List (MaxValueOfMatrixElementsParallel T))
    (rows cols : Int) (buf : List T) (bufs : List (Buffer T))
    (o : T) (slots : List T) (outs : List (List T))
    (hin : root.taskData.inputs = Buffer.ints [rows, cols] :: Buffer.elems buf :: bufs)
    (hout : root.taskData.outputs = (o :: slots) :: outs)
    (hrows : 0 < rows) (hcols : 0 < cols)
    (hn0 : 0 ≤ mulInt rows cols) (hn1 : mulInt rows cols ≤ buf.length) :
    ∃ (ls : List (List T)) (g : T) (r3 : MaxValueOfMatrixElementsParallel T)
      (rest : List (MaxValueOfMatrixElementsParallel T)),
      scatterv (buf.take (mulInt rows cols).toNat)
        (distr (mulInt rows cols) ((others.length + 1 : Nat) : Int))
        (displ (mulInt rows cols) ((others.length + 1 : Nat) : Int)) = some ls ∧
      reduce maximum (ls.map MaxValueOfMatrixElementsParallel.get_max_matrix_element) =
        some g ∧
      MaxValueOfMatrixElementsParallel.pipeline (root :: others) = some (true, r3 :: rest) ∧
      r3.taskData = { root.taskData with outputs := (g :: slots) :: outs } ∧
      rest.map (fun t => t.taskData) = others.map (fun t => t.taskData) := by
  have hsize : (1 : Int) ≤ ((others.length + 1 : Nat) : Int) := by omega
  have hmlen : (((buf.take (mulInt rows cols).toNat).length : Nat) : Int) = mulInt rows cols := by
    rw [List.length_take]
    omega
  obtain ⟨lss, hsc, _, hlslen, _⟩ :=
    scatterv_distr (buf.take (mulInt rows cols).toNat) _ hsize
  rw [hmlen] at hsc
  cases lss with
  | nil => simp at hlslen
  | cons l ls =>
    have hred : reduce maximum
        ((l :: ls).map MaxValueOfMatrixElementsParallel.get_max_matrix_element) =
        some (List.foldl maximum
          (MaxValueOfMatrixElementsParallel.get_max_matrix_element l)
          (List.map MaxValueOfMatrixElementsParallel.get_max_matrix_element ls)) := rfl
    have hv := parallel_validation_valid root rows cols _ _ _ hin hout hrows hcols
    have hp := parallel_pre_processing_valid root rows cols buf bufs hin hrows hcols hn0 hn1
    have hrun := run_eq
      ({ root with rows_ := rows, cols_ := cols,
                   matrix := buf.take (mulInt rows cols).toNat } :
        MaxValueOfMatrixElementsParallel T) others l ls _ hsc hred
    have hfr := run_frame _ _ hrun
    have hpost := parallel_post_processing_root
      ({ root with rows_ := rows, cols_ := cols,
                   matrix := buf.take (mulInt rows cols).toNat,
                   local_max_ := MaxValueOfMatrixElementsParallel.get_max_matrix_element l,
                   global_max_ := List.foldl maximum
                      (MaxValueOfMatrixElementsParallel.get_max_matrix_element l)
                      (List.map MaxValueOfMatrixElementsParallel.get_max_matrix_element ls) } :
        MaxValueOfMatrixElementsParallel T) o slots outs hout
    have htail : ∀ e ∈ (others.zip
        (ls.map MaxValueOfMatrixElementsParallel.get_max_matrix_element)).map
          (fun e => ((true, { e.1 with rows_ := rows, cols_ := cols, local_max_ := e.2 }) :
            Bool × MaxValueOfMatrixElementsParallel T)), e.1 = true := by
      intro e he
      obtain ⟨x, _, rfl⟩ := List.mem_map.mp he
      rfl
    have hpipe := pipeline_of_stages root root _ _ _ others _ hv hp hrun htail hpost
    refine ⟨l :: ls, _, _, _, hsc, hred, hpipe, rfl, ?_⟩
    have h1 := hfr.1
    simp only [List.map_cons, List.cons.injEq, true_and] at h1
    simp only [List.map_map] at h1 ⊢
    exact h1

end PipelineState

section PipelineStateSequential

variable {T : Type} [LinearOrder T]

/-- The sequential pipeline on a well-formed task whose stored matrix has the maximum `v`,
with the state it leaves. -/
theorem sequential_pipeline_eq (self : MaxValueOfMatrixElementsSequential T)
    (rows cols : Int) (buf : List T) (bufs : List (Buffer T))
    (o : T) (slots : List T) (outs : List (List T)) (v : T)
    (hin : self.taskData.inputs = Buffer.ints [rows, cols] :: Buffer.elems buf :: bufs)
    (hout : self.taskData.outputs = (o :: slots) :: outs)
    (hrows : 0 < rows) (hcols : 0 < cols)
    (hn0 : 0 ≤ mulInt rows cols) (hn1 : mulInt rows cols ≤ buf.length)
    (hv : max_element (buf.take (mulInt rows cols).toNat) = some v) :
    MaxValueOfMatrixElementsSequential.pipeline self =
      some (true, { self with
        rows_ := rows, cols_ := cols, matrix := buf.take (mulInt rows cols).toNat, res := v,
        taskData := { self.taskData with outputs := (v :: slots) :: outs } }) := by
  obtain ⟨hr, hc⟩ := read_shape self.taskData rows cols _ hin
  have hm := read_matrix self.taskData _ buf bufs (mulInt rows cols) hin hn0 hn1
  unfold MaxValueOfMatrixElementsSequential.pipeline
    MaxValueOfMatrixElementsSequential.validation
    MaxValueOfMatrixElementsSequential.pre_processing
    MaxValueOfMatrixElementsSequential.run
    MaxValueOfMatrixElementsSequential.post_processing
    MaxValueOfMatrixElementsSequential.get_max_matrix_element
  have hne : self.taskData.inputs.isEmpty = false := by rw [hin]; rfl
  simp only [hne, hout, hr, hc, hm, not_le.mpr hrows, not_le.mpr hcols, List.isEmpty_cons,
    Bool.not_false, Bool.and_self, or_self, if_false, hv]
  simp [TaskData.write_output0, hout]

end PipelineStateSequential

section Slices

variable {T : Type}

theorem length_le_length_flatten (ls : List (List T)) (h : ∀ s ∈ ls, s ≠ []) :
    ls.length ≤ ls.flatten.length := by
  induction ls with
  | nil => simp
  | cons s ss ih =>
    have hs : s ≠ [] := h s (by simp)
    have hpos : 0 < s.length := List.length_pos.mpr hs
    have := ih (fun t ht => h t (by simp [ht]))
    simp only [List.length_cons, List.flatten_cons, List.length_append]
    omega

/-- The slices `scatterv` hands out for the partition of `run`: rank `i` receives the
`distr[i]` elements of `m` that start at `displ[i]`, the range lies within `m`, and the
slices concatenate to `m`. -/
theorem scatterv_slices (m : List T) (p : Nat) (hp : 1 ≤ p) :
    ∃ ls, scatterv m (distr m.length p) (displ m.length p) = some ls ∧ ls.length = p ∧
      ls.flatten = m ∧
      ∀ i : Nat, i < p → ∃ off cnt : Int,
        (displ m.length p)[i]? = some off ∧ (distr m.length p)[i]? = some cnt ∧
        0 ≤ off ∧ 0 ≤ cnt ∧ off + cnt ≤ m.length ∧
        ls[i]? = some ((m.drop off.toNat).take cnt.toNat) := by
  have hs : (1 : Int) ≤ (p : Int) := by exact_mod_cast hp
  have hn : (0 : Int) ≤ m.length := Int.natCast_nonneg _
  obtain ⟨ls, hsc, hflat, hlen, _⟩ := scatterv_distr m p hs
  refine ⟨ls, hsc, by simpa using hlen, hflat, ?_⟩
  intro i hi
  have hd := distr_getElem? m.length p hn hs i (by exact_mod_cast hi)
  have ho : (displ m.length p)[i]? = some (((distr m.length p).take i).sum) := by
    rw [displ_getElem?]
    simp [hi]
  have hz : ((distr m.length p).zip (displ m.length p))[i]? =
      some ((m.length : Int) / (p : Int) +
          (if (i : Int) < (m.length : Int) % (p : Int) then 1 else 0),
        ((distr m.length p).take i).sum) :=
    List.getElem?_zip_eq_some.mpr ⟨hd, ho⟩
  have hb := zip_running_offsets_bounds (distr m.length p)
    (distr_nonneg m.length p hn hs) 0 _
    (by rw [← displ_eq_running_offsets]; exact List.getElem?_mem hz)
  rw [distr_sum _ _ hn hs] at hb
  refine ⟨_, _, ho, hd, hb.2.1, hb.1, by omega, ?_⟩
  unfold scatterv at hsc
  split at hsc
  · simp only [Option.some.injEq] at hsc
    rw [← hsc, List.getElem?_map, hz]
    rfl
  · exact absurd hsc (by simp)

end Slices

/-! ## C11 -/

/-- C11: the sequential task's `validation` returns `true` if and only if at least one input
buffer and at least one output buffer are supplied; whatever shape `[rows, cols]` input
buffer 0 declares, the result is `true` as soon as an output buffer is supplied. -/
theorem sequential_validation_true_iff {T : Type} (self : MaxValueOfMatrixElementsSequential T)
    (rows cols : Int) (bufs : List (Buffer T)) :
    (∃ b, MaxValueOfMatrixElementsSequential.validation self = some (b, self) ∧
      (b = true ↔ (self.taskData.inputs ≠ [] ∧ self.taskData.outputs ≠ []))) ∧
    (∃ s, MaxValueOfMatrixElementsSequential.validation
        { self with taskData :=
            { self.taskData with inputs := Buffer.ints [rows, cols] :: bufs } } =
        some (!self.taskData.outputs.isEmpty, s)) := by
  unfold MaxValueOfMatrixElementsSequential.validation
  constructor
  · refine ⟨_, rfl, ?_⟩
    cases self.taskData.inputs <;> cases self.taskData.outputs <;> simp
  · exact ⟨_, rfl⟩

/-! ## C14 -/

/-- C14: for an empty sequence the distributed task's `get_max_matrix_element` returns the
zero of `T`; for `T = int` this is a value, not an error, and differs from the lowest value
`INT_MIN`. -/
theorem parallel_get_max_matrix_element_empty {T : Type} [LinearOrder T] [Zero T] :
    MaxValueOfMatrixElementsParallel.get_max_matrix_element ([] : List T) = 0 ∧
    MaxValueOfMatrixElementsParallel.get_max_matrix_element ([] : List Int) ≠ INT_MIN :=
  ⟨rfl, by decide⟩

/-! ## C12 -/

/-- C12: `post_processing` of the distributed task at the coordinator sets `outputs[0][0]`
to `global_max_` and leaves every other output slot and every input buffer as it was; at a
rank other than 0 it leaves the instance unchanged; `run` of the sequential task sets
`outputs[0][0]` to the maximum `v` of the stored matrix and leaves every other slot as it
was; the collective `run` of the distributed task and `post_processing` of the sequential
task change no task data. -/
theorem output_write_frame {T : Type} [LinearOrder T] [Zero T]
    (par : MaxValueOfMatrixElementsParallel T) (seq : MaxValueOfMatrixElementsSequential T)
    (o : T) (slots : List T) (outs : List (List T))
    (o' : T) (slots' : List T) (outs' : List (List T)) (v : T)
    (hpar : par.taskData.outputs = (o :: slots) :: outs)
    (hseq : seq.taskData.outputs = (o' :: slots') :: outs')
    (hv : IsMaxOf v seq.matrix) :
    MaxValueOfMatrixElementsParallel.post_processing 0 par =
      some (true, { par with
        taskData := { par.taskData with outputs := (par.global_max_ :: slots) :: outs } }) ∧
    (∀ rank : Int, rank ≠ 0 →
      MaxValueOfMatrixElementsParallel.post_processing rank par = some (true, par)) ∧
    MaxValueOfMatrixElementsSequential.run seq =
      some (true, { seq with
        res := v, taskData := { seq.taskData with outputs := (v :: slots') :: outs' } }) ∧
    (∀ (world : List (MaxValueOfMatrixElementsParallel T))
        (ran : List (Bool × MaxValueOfMatrixElementsParallel T)),
      MaxValueOfMatrixElementsParallel.run world = some ran →
        ran.map (fun r => r.2.taskData) = world.map (fun t => t.taskData)) ∧
    MaxValueOfMatrixElementsSequential.post_processing seq = some (true, seq) := by
  refine ⟨parallel_post_processing_root par o slots outs hpar,
    fun rank h => post_processing_other rank par h, ?_,
    fun world ran h => (run_frame world ran h).1, rfl⟩
  have hne : seq.matrix ≠ [] := List.ne_nil_of_mem hv.1
  obtain ⟨w, hw, hmax⟩ := max_element_isMaxOf seq.matrix hne
  have hwv : w = v := isMaxOf_unique hmax hv
  unfold MaxValueOfMatrixElementsSequential.run
    MaxValueOfMatrixElementsSequential.get_max_matrix_element
  rw [hw, hwv]
  simp [TaskData.write_output0, hseq]

/-- C12 (witness): an output buffer `[0, 8]` followed by a second buffer `[4]`; only slot 0
of buffer 0 is written. -/
theorem output_write_frame_witness :
    MaxValueOfMatrixElementsSequential.run
        { MaxValueOfMatrixElementsSequential.init
            ({ inputs := [], outputs := [[0, 8], [4]] } : TaskData Int) with
          matrix := [1, 7, 3, 9, 2, 5] } =
      some (true,
        { MaxValueOfMatrixElementsSequential.init
            ({ inputs := [], outputs := [[0, 8], [4]] } : TaskData Int) with
          matrix := [1, 7, 3, 9, 2, 5], res := 9,
          taskData := { inputs := [], outputs := [[9, 8], [4]] } }) :=
  (output_write_frame
    (MaxValueOfMatrixElementsParallel.init
      ({ inputs := [], outputs := [[0, 8], [4]] } : TaskData Int) INT_MIN)
    { MaxValueOfMatrixElementsSequential.init
        ({ inputs := [], outputs := [[0, 8], [4]] } : TaskData Int) with
      matrix := [1, 7, 3, 9, 2, 5] }
    0 [8] [[4]] 0 [8] [[4]] 9 rfl rfl ⟨by decide, by decide⟩).2.2.1

/-! ## C13 -/

/-- C13: on well-formed task data with `rows > 0`, `cols > 0` and the 32-bit element count
`rows_ * cols_` within the supplied buffer (as for every matrix of `rows * cols ≤ INT_MAX`
elements), the distributed pipeline succeeds, and run a second time on the instances the
first run left behind it succeeds again with the same output value; the same holds for the
sequential pipeline whenever the element count is positive. -/
theorem pipeline_idempotent {T : Type} [LinearOrder T] [Zero T]
    (root : MaxValueOfMatrixElementsParallel T)
    (others : List (MaxValueOfMatrixElementsParallel T))
    (seq : MaxValueOfMatrixElementsSequential T)
    (rows cols : Int) (buf : List T) (bufs : List (Buffer T))
    (o : T) (slots : List T) (outs : List (List T))
    (hin : root.taskData.inputs = Buffer.ints [rows, cols] :: Buffer.elems buf :: bufs)
    (hout : root.taskData.outputs = (o :: slots) :: outs)
    (hsame : seq.taskData = root.taskData)
    (hrows : 0 < rows) (hcols : 0 < cols)
    (hn0 : 0 ≤ mulInt rows cols) (hn1 : mulInt rows cols ≤ buf.length) :
    (∃ w1 w2 g,
      MaxValueOfMatrixElementsParallel.pipeline (root :: others) = some (true, w1) ∧
      MaxValueOfMatrixElementsParallel.pipeline w1 = some (true, w2) ∧
      MaxValueOfMatrixElementsParallel.output (root :: others) = some g ∧
      MaxValueOfMatrixElementsParallel.output w1 = some g) ∧
    (0 < mulInt rows cols →
      ∃ s1 s2 v,
        MaxValueOfMatrixElementsSequential.pipeline seq = some (true, s1) ∧
        MaxValueOfMatrixElementsSequential.pipeline s1 = some (true, s2) ∧
        MaxValueOfMatrixElementsSequential.output seq = some v ∧
        MaxValueOfMatrixElementsSequential.output s1 = some v) := by
  constructor
  · obtain ⟨ls, g, r3, rest, hsc, hred, hpipe, htd, hrest⟩ :=
      parallel_pipeline_eq root others rows cols buf bufs o slots outs hin hout hrows hcols
        hn0 hn1
    have hlen : rest.length = others.length := by
      have := congrArg List.length hrest
      simpa using this
    have hin3 : r3.taskData.inputs = Buffer.ints [rows, cols] :: Buffer.elems buf :: bufs := by
      rw [htd]; exact hin
    have hout3 : r3.taskData.outputs = (g :: slots) :: outs := by rw [htd]
    obtain ⟨ls', g', r3', rest', hsc', hred', hpipe', htd', _⟩ :=
      parallel_pipeline_eq r3 rest rows cols buf bufs g slots outs hin3 hout3 hrows hcols
        hn0 hn1
    rw [hlen, hsc] at hsc'
    have hls : ls = ls' := Option.some.inj hsc'
    subst hls
    rw [hred] at hred'
    have hg : g = g' := Option.some.inj hred'
    subst hg
    refine ⟨_, _, g, hpipe, hpipe', ?_, ?_⟩
    · unfold MaxValueOfMatrixElementsParallel.output
      rw [hpipe]
      simp [TaskData.output0, htd]
    · unfold MaxValueOfMatrixElementsParallel.output
      rw [hpipe']
      simp [TaskData.output0, htd']
  · intro hpos
    have hne : buf.take (mulInt rows cols).toNat ≠ [] := by
      intro h
      have := congrArg List.length h
      rw [List.length_take] at this
      simp only [List.length_nil] at this
      omega
    obtain ⟨v, hv, _⟩ := max_element_isMaxOf _ hne
    have hp1 := sequential_pipeline_eq seq rows cols buf bufs o slots outs v
      (by rw [hsame]; exact hin) (by rw [hsame]; exact hout) hrows hcols hn0 hn1 hv
    have hp2 := sequential_pipeline_eq
      ({ seq with
          rows_ := rows, cols_ := cols, matrix := buf.take (mulInt rows cols).toNat, res := v,
          taskData := { seq.taskData with outputs := (v :: slots) :: outs } } :
        MaxValueOfMatrixElementsSequential T)
      rows cols buf bufs v slots outs v (by rw [hsame]; exact hin) rfl hrows hcols hn0 hn1 hv
    refine ⟨_, _, v, hp1, hp2, ?_, ?_⟩
    · unfold MaxValueOfMatrixElementsSequential.output
      rw [hp1]
      rfl
    · unfold MaxValueOfMatrixElementsSequential.output
      rw [hp2]
      rfl

/-- C13 (witness): the 2 × 3 scenario on two processes, run twice. -/
theorem pipeline_idempotent_witness :
    ∃ w1 w2 g,
      MaxValueOfMatrixElementsParallel.pipeline
        [MaxValueOfMatrixElementsParallel.init scenario_2x3 INT_MIN,
         MaxValueOfMatrixElementsParallel.init no_task_data INT_MIN] = some (true, w1) ∧
      MaxValueOfMatrixElementsParallel.pipeline w1 = some (true, w2) ∧
      MaxValueOfMatrixElementsParallel.output
        [MaxValueOfMatrixElementsParallel.init scenario_2x3 INT_MIN,
         MaxValueOfMatrixElementsParallel.init no_task_data INT_MIN] = some g ∧
      MaxValueOfMatrixElementsParallel.output w1 = some g :=
  (pipeline_idempotent (MaxValueOfMatrixElementsParallel.init scenario_2x3 INT_MIN)
    [MaxValueOfMatrixElementsParallel.init no_task_data INT_MIN]
    (MaxValueOfMatrixElementsSequential.init scenario_2x3) 2 3 [1, 7, 3, 9, 2, 5] [] 0 [] []
    rfl rfl rfl (by decide) (by decide) (by decide) (by decide)).1

/-! ## C15 -/

/-- C15: for a matrix with `rows > 0`, `cols > 0` whose elements are all negative and a
worker count `p = others.length + 1 > rows * cols` (`p` being an `int`), the distributed
task outputs `0`, while the true maximum is negative and so differs from the output. -/
theorem all_negative_output_zero {T : Type} [LinearOrder T] [Zero T]
    (root : MaxValueOfMatrixElementsParallel T)
    (others : List (MaxValueOfMatrixElementsParallel T))
    (rows cols : Int) (m : List T) (o : T) (slots : List T) (outs : List (List T))
    (hin : root.taskData.inputs = [Buffer.ints [rows, cols], Buffer.elems m])
    (hout : root.taskData.outputs = (o :: slots) :: outs)
    (hrows : 0 < rows) (hcols : 0 < cols) (hlen : (m.length : Int) = rows * cols)
    (hneg : ∀ x ∈ m, x < 0)
    (hp : rows * cols < ((others.length + 1 : Nat) : Int))
    (hint : ((others.length + 1 : Nat) : Int) ≤ INT_MAX) :
    MaxValueOfMatrixElementsParallel.output (root :: others) = some 0 ∧
    ∃ v, IsMaxOf v m ∧ v < 0 ∧
      MaxValueOfMatrixElementsParallel.output (root :: others) ≠ some v := by
  have hpos : 0 < rows * cols := Int.mul_pos hrows hcols
  have hfit : rows * cols ≤ INT_MAX := by omega
  have hmul : mulInt rows cols = rows * cols := mulInt_eq_mul rows cols (le_of_lt hpos) hfit
  have hne : m ≠ [] := by
    intro h
    rw [h] at hlen
    simp at hlen
    omega
  obtain ⟨ls, g, hflat, hlslen, _, hg, hout'⟩ :=
    parallel_output_eq root others rows cols m [] o slots outs hin hout hrows hcols
      (by rw [hmul]; exact le_of_lt hpos) (by rw [hmul, hlen])
  have htake : m.take (mulInt rows cols).toNat = m := by
    rw [hmul, ← hlen]; simp
  rw [htake] at hflat
  have hle : g ≤ 0 := by
    obtain ⟨s, hs, rfl⟩ := List.mem_map.mp hg.1
    by_cases hnil : s = []
    · rw [hnil, parallel_get_max_nil]
    · have hmem := (parallel_get_max_isMaxOf s hnil).1
      have : MaxValueOfMatrixElementsParallel.get_max_matrix_element s ∈ m := by
        rw [← hflat]
        exact List.mem_flatten.mpr ⟨s, hs, hmem⟩
      exact le_of_lt (hneg _ this)
  have hempty : ∃ s ∈ ls, s = [] := by
    by_contra hcon
    have hall : ∀ s ∈ ls, s ≠ [] := fun s hs hnil => hcon ⟨s, hs, hnil⟩
    have h1 := length_le_length_flatten ls hall
    rw [hflat, hlslen] at h1
    omega
  obtain ⟨s, hs, hnil⟩ := hempty
  have hge : 0 ≤ g := by
    have := hg.2 _ (List.mem_map.mpr ⟨s, hs, rfl⟩)
    rwa [hnil, parallel_get_max_nil] at this
  have hg0 : g = 0 := le_antisymm hle hge
  rw [hg0] at hout'
  obtain ⟨v, _, hv⟩ := max_element_isMaxOf m hne
  have hvneg : v < 0 := hneg v hv.1
  refine ⟨hout', v, hv, hvneg, ?_⟩
  rw [hout']
  intro h
  have := Option.some.inj h
  rw [← this] at hvneg
  exact lt_irrefl _ hvneg

/-- C15 (witness): the matrix `[[-5]]` on two processes yields `0`. -/
theorem all_negative_output_zero_witness :
    MaxValueOfMatrixElementsParallel.output
      [MaxValueOfMatrixElementsParallel.init scenario_negative INT_MIN,
       MaxValueOfMatrixElementsParallel.init no_task_data INT_MIN] = some 0 :=
  (all_negative_output_zero (MaxValueOfMatrixElementsParallel.init scenario_negative INT_MIN)
    [MaxValueOfMatrixElementsParallel.init no_task_data INT_MIN] 1 1 [-5] 7 [] []
    rfl rfl (by decide) (by decide) (by decide) (by decide) (by decide) (by decide)).1

/-! ## C16 -/

/-- C16 (amended): for a matrix with `rows > 0`, `cols > 0` whose `rows * cols` elements fit
the `int` range and a worker count `p = others.length + 1 ≥ 1`, if every worker receives a
non-empty slice (`p ≤ rows * cols`) or some element is `≥ 0`, the distributed task's output
is the maximum of the flattened matrix; in particular a non-negative maximum is always the
output, whatever slices are empty. -/
theorem guarded_output_is_max {T : Type} [LinearOrder T] [Zero T]
    (root : MaxValueOfMatrixElementsParallel T)
    (others : List (MaxValueOfMatrixElementsParallel T))
    (rows cols : Int) (m : List T) (o : T) (slots : List T) (outs : List (List T))
    (hin : root.taskData.inputs = [Buffer.ints [rows, cols], Buffer.elems m])
    (hout : root.taskData.outputs = (o :: slots) :: outs)
    (hrows : 0 < rows) (hcols : 0 < cols) (hlen : (m.length : Int) = rows * cols)
    (hfit : rows * cols ≤ INT_MAX) :
    ((((others.length + 1 : Nat) : Int) ≤ rows * cols ∨ ∃ x ∈ m, 0 ≤ x) →
      ∃ v, MaxValueOfMatrixElementsParallel.output (root :: others) = some v ∧ IsMaxOf v m) ∧
    (∀ v, IsMaxOf v m → 0 ≤ v →
      MaxValueOfMatrixElementsParallel.output (root :: others) = some v) := by
  constructor
  · exact parallel_output_correct root others rows cols m o slots outs hin hout hrows hcols
      hlen hfit
  · intro v hv h0
    obtain ⟨w, hw, hmax⟩ := parallel_output_correct root others rows cols m o slots outs hin
      hout hrows hcols hlen hfit (Or.inr ⟨v, hv.1, h0⟩)
    rw [hw, isMaxOf_unique hmax hv]

/-- C16 (witness): the matrix `[[42]]` on four processes, three of them with an empty
slice. -/
theorem guarded_output_is_max_witness :
    MaxValueOfMatrixElementsParallel.output
      [MaxValueOfMatrixElementsParallel.init scenario_42 INT_MIN,
       MaxValueOfMatrixElementsParallel.init no_task_data INT_MIN,
       MaxValueOfMatrixElementsParallel.init no_task_data INT_MIN,
       MaxValueOfMatrixElementsParallel.init no_task_data INT_MIN] = some 42 :=
  (guarded_output_is_max
    (MaxValueOfMatrixElementsParallel.init scenario_42 INT_MIN)
    [MaxValueOfMatrixElementsParallel.init no_task_data INT_MIN,
     MaxValueOfMatrixElementsParallel.init no_task_data INT_MIN,
     MaxValueOfMatrixElementsParallel.init no_task_data INT_MIN] 1 1 [42] 0 [] []
    rfl rfl (by decide) (by decide) (by decide) (by decide)).2 42
      ⟨by decide, by decide⟩ (by decide)

/-- C16 (counterexample): a `65536 × 65536` matrix of ones on one process satisfies
`p ≤ rows * cols` and has an element `≥ 0`, yet the 32-bit product `rows_ * cols_` is `0`
and the output is `0`, not the maximum `1`. -/
theorem guarded_output_not_max :
    ((1 : Int) ≤ 65536 * 65536 ∧ ∃ x ∈ List.replicate 4294967296 (1 : Int), 0 ≤ x) ∧
    ((List.replicate 4294967296 (1 : Int)).length : Int) = 65536 * 65536 ∧
    MaxValueOfMatrixElementsParallel.output
      [MaxValueOfMatrixElementsParallel.init scenario_65536 INT_MIN] = some 0 ∧
    ¬ IsMaxOf 0 (List.replicate 4294967296 (1 : Int)) :=
  ⟨⟨by decide, 1, List.mem_replicate.mpr ⟨by decide, rfl⟩, by decide⟩,
    scenario_65536_length, parallel_output_scenario_65536, scenario_65536_not_isMaxOf_zero⟩

theorem distr_more_workers (n : Int) (p : Nat) (hn : 1 ≤ n) (hp : n < p) :
    distr n p = List.replicate n.toNat 1 ++ List.replicate (p - n.toNat) 0 := by
  have h0 : (0 : Int) ≤ n := by omega
  rw [distr_eq n p h0 (by omega), Int.emod_eq_of_lt h0 hp, Int.ediv_eq_zero_of_lt h0 hp]
  simp

/-! ## C17 -/

/-- C17: with more workers than elements (`1 ≤ n = m.length < p`) the counts are `1` for the
first `n` workers and `0` for the remaining `p - n`; worker `i < n` receives exactly the
element `m[i]` and every worker `i ≥ n` an empty slice. For `rows = 1`, `cols = 1`, `p = 4`
the counts are `[1, 0, 0, 0]`, the slices of `[[42]]` are `[42]` and three empty ones, and
the distributed task outputs `42`. -/
theorem more_workers_than_elements {T : Type} (m : List T) (p : Nat)
    (hn : 1 ≤ m.length) (hp : m.length < p) :
    distr m.length p = List.replicate m.length 1 ++ List.replicate (p - m.length) 0 ∧
    (∃ ls, scatterv m (distr m.length p) (displ m.length p) = some ls ∧ ls.length = p ∧
      (∀ i : Nat, i < m.length → ∃ x, m[i]? = some x ∧ ls[i]? = some [x]) ∧
      (∀ i : Nat, m.length ≤ i → i < p → ls[i]? = some [])) ∧
    distr 1 (4 : Nat) = [1, 0, 0, 0] ∧
    scatterv [(42 : Int)] (distr 1 (4 : Nat)) (displ 1 (4 : Nat)) = some [[42], [], [], []] ∧
    MaxValueOfMatrixElementsParallel.output
      [MaxValueOfMatrixElementsParallel.init scenario_42 INT_MIN,
       MaxValueOfMatrixElementsParallel.init no_task_data INT_MIN,
       MaxValueOfMatrixElementsParallel.init no_task_data INT_MIN,
       MaxValueOfMatrixElementsParallel.init no_task_data INT_MIN] = some 42 := by
  have hd := distr_more_workers m.length p (by exact_mod_cast hn) (by exact_mod_cast hp)
  simp only [Int.toNat_ofNat] at hd
  refine ⟨hd, ?_, by decide, by decide, by decide⟩
  obtain ⟨ls, hsc, hlen, _, hsl⟩ := scatterv_slices m p (by omega)
  refine ⟨ls, hsc, hlen, ?_, ?_⟩
  · intro i hi
    obtain ⟨off, cnt, ho, hc, _, _, _, hls⟩ := hsl i (by omega)
    have hcnt : cnt = 1 := by
      rw [hd, List.getElem?_append_left (by simpa using hi), List.getElem?_replicate] at hc
      simp only [hi, if_true, Option.some.injEq] at hc
      exact hc.symm
    have hoff : off = i := by
      rw [displ_getElem?, hd, List.take_append_of_le_length (by simpa using le_of_lt hi),
        List.take_replicate, List.sum_replicate] at ho
      have hmin : min i m.length = i := Nat.min_eq_left (le_of_lt hi)
      simp only [Int.toNat_ofNat, hmin] at ho
      split at ho
      · simp only [Option.some.injEq] at ho
        rw [← ho]
        simp
      · exact absurd ho (by simp)
    obtain ⟨x, hx⟩ : ∃ x, m[i]? = some x := ⟨m[i], List.getElem?_eq_getElem hi⟩
    refine ⟨x, hx, ?_⟩
    rw [hls, hcnt, hoff]
    simp only [Int.toNat_ofNat, Int.toNat_one]
    rw [List.take_one, List.head?_drop, hx]
    rfl
  · intro i hi hip
    obtain ⟨off, cnt, _, hc, _, _, _, hls⟩ := hsl i hip
    have hcnt : cnt = 0 := by
      rw [hd, List.getElem?_append_right (by simpa using hi), List.getElem?_replicate] at hc
      split at hc
      · exact (Option.some.inj hc).symm
      · exact absurd hc (by simp)
    rw [hls, hcnt]
    simp

/-- C17 (witness): one element on four processes. -/
theorem more_workers_than_elements_witness :
    distr (([(42 : Int)].length : Nat) : Int) ((4 : Nat) : Int) =
      List.replicate [(42 : Int)].length 1 ++ List.replicate (4 - [(42 : Int)].length) 0 :=
  (more_workers_than_elements [(42 : Int)] 4 (by decide) (by decide)).1

theorem sequential_run_empty {T : Type} [LinearOrder T]
    (s : MaxValueOfMatrixElementsSequential T) (h : s.matrix = []) :
    MaxValueOfMatrixElementsSequential.run s = none := by
  unfold MaxValueOfMatrixElementsSequential.run
    MaxValueOfMatrixElementsSequential.get_max_matrix_element
  rw [h]
  rfl

/-! ## C18 -/

/-- C18: for every matrix `m` of length `n` and every `p ≥ 1`, the slices `run` scatters
with the counts `distr` and offsets `displ` of `n` are in bounds
(`0 ≤ displ[i]`, `0 ≤ distr[i]`, `displ[i] + distr[i] ≤ n` for every `i < p`), rank `i`
receives `m[displ[i] .. displ[i] + distr[i])`, and the `p` slices concatenated in rank order
are exactly `m`. -/
theorem scattered_slices_partition {T : Type} (m : List T) (p : Nat) (hp : 1 ≤ p) :
    ∃ ls, scatterv m (distr m.length p) (displ m.length p) = some ls ∧ ls.length = p ∧
      (∀ i : Nat, i < p → ∃ off cnt : Int,
        (displ m.length p)[i]? = some off ∧ (distr m.length p)[i]? = some cnt ∧
        0 ≤ off ∧ 0 ≤ cnt ∧ off + cnt ≤ m.length ∧
        ls[i]? = some ((m.drop off.toNat).take cnt.toNat)) ∧
      ls.flatten = m := by
  obtain ⟨ls, hsc, hlen, hflat, hsl⟩ := scatterv_slices m p hp
  exact ⟨ls, hsc, hlen, hsl, hflat⟩

/-- C18 (witness): six elements on four processes are cut into `[1,7]`, `[3,9]`, `[2]`,
`[5]`. -/
theorem scattered_slices_partition_witness :
    ∃ ls, scatterv ([1, 7, 3, 9, 2, 5] : List Int)
        (distr (([1, 7, 3, 9, 2, 5] : List Int).length : Nat) ((4 : Nat) : Int))
        (displ (([1, 7, 3, 9, 2, 5] : List Int).length : Nat) ((4 : Nat) : Int)) = some ls ∧
      ls.length = 4 ∧
      (∀ i : Nat, i < 4 → ∃ off cnt : Int,
        (displ (([1, 7, 3, 9, 2, 5] : List Int).length : Nat) ((4 : Nat) : Int))[i]? =
          some off ∧
        (distr (([1, 7, 3, 9, 2, 5] : List Int).length : Nat) ((4 : Nat) : Int))[i]? =
          some cnt ∧
        0 ≤ off ∧ 0 ≤ cnt ∧ off + cnt ≤ (([1, 7, 3, 9, 2, 5] : List Int).length : Nat) ∧
        ls[i]? = some ((([1, 7, 3, 9, 2, 5] : List Int).drop off.toNat).take cnt.toNat)) ∧
      ls.flatten = [1, 7, 3, 9, 2, 5] :=
  scattered_slices_partition [1, 7, 3, 9, 2, 5] 4 (by decide)

/-! ## C19 -/

/-- C19 (amended): whenever the sequential task's `pre_processing` returns `true`,
`rows > 0`, `cols > 0` and the stored matrix has as many elements as the 32-bit `int`
product `rows_ * cols_`, so it is non-empty exactly when that product is `≥ 1`; if
`rows * cols ≤ INT_MAX` the product does not overflow, the stored matrix has
`rows * cols ≥ 1` elements and `get_max_matrix_element` in `run` finds its maximum. -/
theorem sequential_pre_processing_stores_nonempty {T : Type} [LinearOrder T]
    (seq s : MaxValueOfMatrixElementsSequential T) (rows cols : Int) (buf : List T)
    (hin : seq.taskData.inputs = [Buffer.ints [rows, cols], Buffer.elems buf])
    (hpre : MaxValueOfMatrixElementsSequential.pre_processing seq = some (true, s)) :
    0 < rows ∧ 0 < cols ∧ (s.matrix.length : Int) = mulInt rows cols ∧
    (s.matrix ≠ [] ↔ 1 ≤ mulInt rows cols) ∧
    (rows * cols ≤ INT_MAX →
      (s.matrix.length : Int) = rows * cols ∧ 1 ≤ s.matrix.length ∧
      ∃ v, MaxValueOfMatrixElementsSequential.get_max_matrix_element s.matrix = some v ∧
        IsMaxOf v s.matrix) := by
  rw [sequential_pre_processing_eq seq rows cols buf [] hin] at hpre
  by_cases h0 : rows ≤ 0 ∨ cols ≤ 0
  · simp [h0] at hpre
  · by_cases hb : 0 ≤ mulInt rows cols ∧ mulInt rows cols ≤ buf.length
    · simp only [h0, hb, and_self, if_true, if_false, Option.some.injEq, Prod.mk.injEq,
        true_and] at hpre
      have hrows : 0 < rows := by omega
      have hcols : 0 < cols := by omega
      have hmat : s.matrix = buf.take (mulInt rows cols).toNat := by rw [← hpre]
      have hlen : (s.matrix.length : Int) = mulInt rows cols := by
        rw [hmat, List.length_take]
        omega
      have hiff : s.matrix ≠ [] ↔ 1 ≤ mulInt rows cols := by
        rw [← List.length_pos]
        omega
      refine ⟨hrows, hcols, hlen, hiff, ?_⟩
      intro hfit
      have hpos : 0 < rows * cols := Int.mul_pos hrows hcols
      have hmul : mulInt rows cols = rows * cols :=
        mulInt_eq_mul rows cols (le_of_lt hpos) hfit
      have hne : s.matrix ≠ [] := hiff.mpr (by omega)
      refine ⟨by rw [hlen, hmul], List.length_pos.mpr hne, ?_⟩
      exact max_element_isMaxOf s.matrix hne
    · simp [h0, hb] at hpre

/-- C19 (witness): the 2 × 3 scenario stores six elements. -/
theorem sequential_pre_processing_stores_nonempty_witness :
    ((([1, 7, 3, 9, 2, 5] : List Int).length : Nat) : Int) = 2 * 3 ∧
      1 ≤ ([1, 7, 3, 9, 2, 5] : List Int).length ∧
      ∃ v, MaxValueOfMatrixElementsSequential.get_max_matrix_element
          ([1, 7, 3, 9, 2, 5] : List Int) = some v ∧
        IsMaxOf v ([1, 7, 3, 9, 2, 5] : List Int) :=
  (sequential_pre_processing_stores_nonempty
    (MaxValueOfMatrixElementsSequential.init scenario_2x3)
    { MaxValueOfMatrixElementsSequential.init scenario_2x3 with
      rows_ := 2, cols_ := 3, matrix := [1, 7, 3, 9, 2, 5] }
    2 3 [1, 7, 3, 9, 2, 5] rfl rfl).2.2.2.2 (by decide)

/-- C19 (counterexample): for `rows = cols = 65536`, both positive 32-bit ints,
`pre_processing` returns `true`, the 32-bit product `rows_ * cols_` is `0`, the stored
matrix is empty, and `run` applies the `max_element` dereference to an empty sequence. -/
theorem sequential_pre_processing_true_but_empty :
    (0 : Int) < 65536 ∧ (65536 : Int) ≤ INT_MAX ∧ mulInt 65536 65536 = 0 ∧
    ∃ s, MaxValueOfMatrixElementsSequential.pre_processing
        (MaxValueOfMatrixElementsSequential.init scenario_65536) = some (true, s) ∧
      s.matrix = [] ∧ MaxValueOfMatrixElementsSequential.run s = none := by
  have hb : 0 ≤ mulInt 65536 65536 ∧
      mulInt 65536 65536 ≤ ((List.replicate 4294967296 (1 : Int)).length : Int) := by
    rw [mulInt_65536]
    exact ⟨le_refl 0, Int.natCast_nonneg _⟩
  have h0 : ¬ ((65536 : Int) ≤ 0 ∨ (65536 : Int) ≤ 0) := by decide
  have hmat : (List.replicate 4294967296 (1 : Int)).take (mulInt 65536 65536).toNat = [] := by
    rw [mulInt_65536]
    rfl
  refine ⟨by decide, by decide, mulInt_65536,
    { MaxValueOfMatrixElementsSequential.init scenario_65536 with
        rows_ := 65536, cols_ := 65536,
        matrix := (List.replicate 4294967296 (1 : Int)).take (mulInt 65536 65536).toNat },
    ?_, hmat, sequential_run_empty _ hmat⟩
  rw [sequential_pre_processing_eq (MaxValueOfMatrixElementsSequential.init scenario_65536)
    65536 65536 (List.replicate 4294967296 1) [] rfl, if_neg h0, if_pos hb]

end belov_a_max_value_of_matrix_elements_mpi
